import Mathlib

/-!
Shallow embedding of `src/trading_engine/Engine.py`: a continuous
double-auction order-matching engine with per-ticker order books (dual
priority queues), a fixed-capacity open-addressing ticker directory, and a
per-slot matching transaction.

Modelling conventions, stated once:
* Python floats (prices, quantities) are embedded as `ℚ`; all operations
  the engine performs on them (comparison, `min`, subtraction) are exact.
* `uuid.uuid4()` and `time.time()` are embedded by a single monotone
  counter `next_id` threaded through the engine state: each `Order` gets
  the current counter value as both its `order_id` and its `timestamp`,
  and the counter is bumped.  The source's only contract for these is
  uniqueness (ids) and monotonicity (timestamps).
* Python's `heapq` module (an external library, not repository code) is
  embedded by its documented contract — a min-priority queue with respect
  to `__lt__` — realised as insertion into a list kept sorted by
  `Order.lt`; `heappop`/`heap[0]` is the head of that list.
* Locks (`threading.RLock`) serialise the critical sections; the
  embedding is the sequential semantics of those critical sections, with
  `trade_locks` kept as a `List Bool` recording which slot locks have
  been lazily created.  The background thread (`continuous_matching`)
  and `stop` are lifecycle wiring outside the embedded state transitions.
* Exceptions become an explicit error result: the `ValueError` raised by
  `addOrder` is `EngineError.InvalidOrder`; the failure produced when
  `ticker_to_index` returns `None` and `addOrder` indexes with it is
  `EngineError.CapacityExceeded` (the spec's taxonomy for that condition).
* Python's randomised builtin `hash` is an engine parameter `hash_ :
  String → ℕ`.
-/

namespace TradingSpec

/-- OrderType from the source: BUY = 1, SELL = 2. -/
inductive OrderType : Type where
  | BUY : OrderType
  | SELL : OrderType
deriving DecidableEq, Repr

/-- Order from the source: immutable identity/price/side fields plus the
remaining quantity that matching may decrement. -/
structure Order : Type where
  order_type : OrderType
  ticker_symbol : String
  price : ℚ
  quantity : ℚ
  timestamp : ℕ
  order_id : ℕ
deriving DecidableEq, Repr

/-- Order.lt embeds `Order.__lt__`: for BUY orders higher price is higher
priority, for SELL orders lower price is higher priority; equal prices
fall back to the earlier timestamp. -/
def Order.lt (s o : Order) : Bool :=
  match s.order_type with
  | OrderType.BUY =>
      if s.price ≠ o.price then decide (o.price < s.price)
      else decide (s.timestamp < o.timestamp)
  | OrderType.SELL =>
      if s.price ≠ o.price then decide (s.price < o.price)
      else decide (s.timestamp < o.timestamp)

/-- heappush embeds `heapq.heappush` by the heapq contract (min-priority
queue under `__lt__`): the queue is a list sorted by `Order.lt`, and push
inserts in front of the first strictly greater element. -/
def heappush (heap : List Order) (item : Order) : List Order :=
  match heap with
  | [] => [item]
  | y :: ys => if Order.lt item y then item :: y :: ys else y :: heappush ys item

/-- OrderBook from the source: a ticker (None until first assigned) plus
the two priority queues.  The two per-side locks are elided; the embedded
operations are their critical sections. -/
structure OrderBook : Type where
  ticker_symbol : Option String
  buy_orders : List Order
  sell_orders : List Order
deriving DecidableEq, Repr

/-- OrderBook.__init__: no ticker, both queues empty. -/
def OrderBook.init : OrderBook :=
  { ticker_symbol := none, buy_orders := [], sell_orders := [] }

instance : Inhabited OrderBook := ⟨OrderBook.init⟩

/-- OrderBook.add_order: route the order to the queue of its side. -/
def OrderBook.add_order (b : OrderBook) (order : Order) : OrderBook :=
  match order.order_type with
  | OrderType.BUY => { b with buy_orders := heappush b.buy_orders order }
  | OrderType.SELL => { b with sell_orders := heappush b.sell_orders order }

/-- OrderBook.get_best_buy: top of the buy queue without removal. -/
def OrderBook.get_best_buy (b : OrderBook) : Option Order :=
  b.buy_orders.head?

/-- OrderBook.get_best_sell: top of the sell queue without removal. -/
def OrderBook.get_best_sell (b : OrderBook) : Option Order :=
  b.sell_orders.head?

/-- OrderBook.pop_best_buy: `heapq.heappop` on the buy queue when
non-empty; returns the popped order (if any) and the updated book. -/
def OrderBook.pop_best_buy (b : OrderBook) : Option Order × OrderBook :=
  match b.buy_orders with
  | [] => (none, b)
  | o :: rest => (some o, { b with buy_orders := rest })

/-- OrderBook.pop_best_sell: `heapq.heappop` on the sell queue when
non-empty; returns the popped order (if any) and the updated book. -/
def OrderBook.pop_best_sell (b : OrderBook) : Option Order × OrderBook :=
  match b.sell_orders with
  | [] => (none, b)
  | o :: rest => (some o, { b with sell_orders := rest })

/-- MatchedOrders from the source: the trade record. -/
structure MatchedOrders : Type where
  buy_order_id : ℕ
  sell_order_id : ℕ
  quantity : ℚ
  price : ℚ
  timestamp : ℕ
deriving DecidableEq, Repr

/-- MatchedOrders.__init__: quantity is the min of the two remaining
quantities, price is the sell order's price; `time.time()` is the
threaded counter `now`. -/
def MatchedOrders.init (buy_order sell_order : Order) (now : ℕ) : MatchedOrders :=
  { buy_order_id := buy_order.order_id
    sell_order_id := sell_order.order_id
    quantity := min buy_order.quantity sell_order.quantity
    price := sell_order.price
    timestamp := now }

/-- Error taxonomy for `addOrder` (§7 of the spec): the `ValueError` for a
non-positive quantity or price, and the capacity failure surfaced when
`ticker_to_index` returns `None` and the subsequent list indexing fails. -/
inductive EngineError : Type where
  | InvalidOrder : EngineError
  | CapacityExceeded : EngineError
deriving DecidableEq, Repr

/-- TradingEngine state from the source.  `running` and the matching
thread are lifecycle wiring (see the header); `hash_` stands for Python's
process-randomised builtin `hash`; `next_id` is the uuid/clock counter. -/
structure TradingEngine : Type where
  size : ℕ
  order_books : List OrderBook
  trade_locks : List Bool
  matches_ : List MatchedOrders
  hash_ : String → ℕ
  next_id : ℕ

/-- TradingEngine.__init__: 1600 slots, all books empty, no per-slot lock
created yet, empty trade ledger. -/
def TradingEngine.init (hash_ : String → ℕ) : TradingEngine :=
  { size := 1600
    order_books := List.replicate 1600 OrderBook.init
    trade_locks := List.replicate 1600 false
    matches_ := []
    hash_ := hash_
    next_id := 0 }

/-- tickerFalsy captures Python's `not order_book.ticker_symbol`: true for
`None` and for the empty string. -/
def tickerFalsy : Option String → Bool
  | none => true
  | some s => s.isEmpty

/-- claimable is the probe test of `ticker_to_index`:
`order_book.ticker_symbol == ticker_symbol or not order_book.ticker_symbol`. -/
def claimable (ts : Option String) (t : String) : Bool :=
  ts == some t || tickerFalsy ts

/-- firstSat embeds the probe loop `for i in range(...)` with an early
return: the first index `i` (counting up from `i0`, at most `fuel` of
them) satisfying `p`. -/
def firstSat (p : ℕ → Bool) : ℕ → ℕ → Option ℕ
  | _, 0 => none
  | i0, fuel + 1 => if p i0 then some i0 else firstSat p (i0 + 1) fuel

/-- claimSlot is the success branch of a probe: assign the ticker to slot
`j` and lazily create that slot's trade lock. -/
def TradingEngine.claimSlot (e : TradingEngine) (t : String) (j : ℕ) : TradingEngine :=
  { e with
    order_books :=
      e.order_books.set j
        { e.order_books.getD j OrderBook.init with ticker_symbol := some t }
    trade_locks := e.trade_locks.set j true }

/-- slotClaimable: the probe test applied to slot `(start + i) % size`. -/
def TradingEngine.slotClaimable (e : TradingEngine) (t : String) (start i : ℕ) : Bool :=
  claimable (e.order_books.getD ((start + i) % e.size) OrderBook.init).ticker_symbol t

/-- ticker_to_index from the source: check the home slot `hash(t) % size`
first; otherwise linearly probe `index, index+1, …` wrapping modulo
`size` for at most `size` probes, claiming the first slot whose ticker
equals `t` or is falsy; `None` when every probe fails. -/
def TradingEngine.ticker_to_index (e : TradingEngine) (t : String) :
    Option ℕ × TradingEngine :=
  let index := e.hash_ t % e.size
  if claimable (e.order_books.getD index OrderBook.init).ticker_symbol t then
    (some index, e.claimSlot t index)
  else
    match firstSat (e.slotClaimable t index) 0 e.size with
    | some i => (some ((index + i) % e.size), e.claimSlot t ((index + i) % e.size))
    | none => (none, e)

/-- addOrder from the source: validate positivity, build the order,
resolve the ticker's slot, push.  The pair returned is (result, engine
state after the call); both error paths leave the engine unchanged, as in
the source (the `ValueError` is raised before any mutation, and a failed
probe cycle mutates nothing before the `None` indexing fails). -/
def TradingEngine.addOrder (e : TradingEngine) (order_type : OrderType)
    (ticker_symbol : String) (quantity price : ℚ) :
    Except EngineError ℕ × TradingEngine :=
  if quantity ≤ 0 ∨ price ≤ 0 then
    (Except.error EngineError.InvalidOrder, e)
  else
    let order : Order :=
      { order_type := order_type, ticker_symbol := ticker_symbol,
        price := price, quantity := quantity,
        timestamp := e.next_id, order_id := e.next_id }
    match e.ticker_to_index ticker_symbol with
    | (none, e2) => (Except.error EngineError.CapacityExceeded, e2)
    | (some index, e2) =>
        (Except.ok order.order_id,
         { e2 with
           order_books :=
             e2.order_books.set index
               ((e2.order_books.getD index OrderBook.init).add_order order)
           next_id := e2.next_id + 1 })

/-- match_pass is one iteration of the `while matched` loop of
`match_orders_by_index` (the body guarded by the slot's trade lock): pop
both bests, trade if they cross (appending to the ledger and requeueing a
partial remainder), otherwise push back whatever was popped.  Returns the
`matched` flag and the state after the iteration. -/
def TradingEngine.match_pass (e : TradingEngine) (index : ℕ) : Bool × TradingEngine :=
  let order_book := e.order_books.getD index OrderBook.init
  let popB := order_book.pop_best_buy
  let popS := popB.2.pop_best_sell
  match popB.1, popS.1 with
  | some best_buy, some best_sell =>
      if best_buy.price ≥ best_sell.price then
        let matched_order := MatchedOrders.init best_buy best_sell e.next_id
        let book' :=
          if best_buy.quantity > best_sell.quantity then
            popS.2.add_order { best_buy with quantity := best_buy.quantity - best_sell.quantity }
          else if best_buy.quantity < best_sell.quantity then
            popS.2.add_order { best_sell with quantity := best_sell.quantity - best_buy.quantity }
          else popS.2
        (true,
         { e with
           matches_ := e.matches_ ++ [matched_order]
           next_id := e.next_id + 1
           order_books := e.order_books.set index book' })
      else
        (false,
         { e with order_books := e.order_books.set index ((popS.2.add_order best_buy).add_order best_sell) })
  | some best_buy, none =>
      (false, { e with order_books := e.order_books.set index (popS.2.add_order best_buy) })
  | none, some best_sell =>
      (false, { e with order_books := e.order_books.set index (popS.2.add_order best_sell) })
  | none, none =>
      (false, { e with order_books := e.order_books.set index popS.2 })

/-- match_loop is the `while matched` loop, fuelled: run a pass; if it
matched, loop on the new state, otherwise stop. -/
def TradingEngine.match_loop (e : TradingEngine) (index : ℕ) : ℕ → TradingEngine
  | 0 => e
  | fuel + 1 =>
      let r := e.match_pass index
      if r.1 then r.2.match_loop index fuel else r.2

/-- match_orders_by_index from the source: skip slots whose ticker is
`None` (note: `is None`, not falsiness), otherwise run the matching loop. -/
def TradingEngine.match_orders_by_index (e : TradingEngine) (index fuel : ℕ) : TradingEngine :=
  if (e.order_books.getD index OrderBook.init).ticker_symbol = none then e
  else e.match_loop index fuel

/-- matchOrder from the source: sweep every slot in index order. -/
def TradingEngine.matchOrder (e : TradingEngine) (fuel : ℕ) : TradingEngine :=
  (List.range e.size).foldl (fun acc i => acc.match_orders_by_index i fuel) e

/-- Step: one externally triggered state transition of the engine — a
`submit` (addOrder) with arbitrary arguments, or one per-slot matching
transaction as run by the background sweep. -/
inductive Step : TradingEngine → TradingEngine → Prop where
  | add (e : TradingEngine) (ot : OrderType) (t : String) (q p : ℚ) :
      Step e (e.addOrder ot t q p).2
  | matchIdx (e : TradingEngine) (index fuel : ℕ) :
      Step e (e.match_orders_by_index index fuel)

/-- Reachable: engine states produced from a fresh engine by any finite
sequence of submissions and matching transactions. -/
def Reachable (hash_ : String → ℕ) (e : TradingEngine) : Prop :=
  Relation.ReflTransGen Step (TradingEngine.init hash_) e

/-- ReachableFrom: closure of `Step` from an arbitrary start state. -/
def ReachableFrom (e e' : TradingEngine) : Prop :=
  Relation.ReflTransGen Step e e'

/-- slotCount: the number of orders resting in slot `index`. -/
def TradingEngine.slotCount (e : TradingEngine) (index : ℕ) : ℕ :=
  (e.order_books.getD index OrderBook.init).buy_orders.length +
    (e.order_books.getD index OrderBook.init).sell_orders.length

/-! ### Generic list helpers -/

theorem getD_set_self {α : Type _} (l : List α) (j : ℕ) (a d : α) (h : j < l.length) :
    (l.set j a).getD j d = a := by
  induction l generalizing j with
  | nil => simp at h
  | cons x xs ih =>
      cases j with
      | zero => simp [List.set, List.getD]
      | succ n => simpa [List.set, List.getD] using ih n (by simpa using h)

theorem getD_set_of_ne {α : Type _} (l : List α) (i j : ℕ) (a d : α) (h : i ≠ j) :
    (l.set i a).getD j d = l.getD j d := by
  induction l generalizing i j with
  | nil => simp [List.set]
  | cons x xs ih =>
      cases i with
      | zero =>
          cases j with
          | zero => exact absurd rfl h
          | succ m => simp [List.set, List.getD]
      | succ n =>
          cases j with
          | zero => simp [List.set, List.getD]
          | succ m => simpa [List.set, List.getD] using ih n m (by omega)

theorem getD_replicate {α : Type _} (n j : ℕ) (d : α) :
    (List.replicate n d).getD j d = d := by
  induction n generalizing j with
  | zero => simp [List.getD]
  | succ m ih =>
      cases j with
      | zero => simp [List.replicate, List.getD]
      | succ k =>
          have hr : List.replicate (m + 1) d = d :: List.replicate m d := rfl
          rw [hr]
          exact ih k

/-! ### The order comparison as a strict lexicographic order on keys -/

/-- key: the sort key realised by `Order.__lt__` on a homogeneous queue —
price negated for BUY orders (so that higher buy prices come first),
timestamp as tie-break. -/
def Order.key (o : Order) : ℚ × ℕ :=
  (if o.order_type = OrderType.BUY then -o.price else o.price, o.timestamp)

/-- keyLt: strict lexicographic comparison of keys. -/
def Order.keyLt (a b : Order) : Prop :=
  a.key.1 < b.key.1 ∨ (a.key.1 = b.key.1 ∧ a.key.2 < b.key.2)

theorem Order.lt_iff_keyLt (a b : Order) (h : a.order_type = b.order_type) :
    Order.lt a b = true ↔ Order.keyLt a b := by
  cases ht : a.order_type with
  | BUY =>
      have hb : b.order_type = OrderType.BUY := by rw [← h, ht]
      by_cases hp : a.price = b.price <;>
        simp [Order.lt, Order.keyLt, Order.key, ht, hb, hp]
  | SELL =>
      have hb : b.order_type = OrderType.SELL := by rw [← h, ht]
      by_cases hp : a.price = b.price <;>
        simp [Order.lt, Order.keyLt, Order.key, ht, hb, hp]

theorem Order.keyLt_irrefl (a : Order) : ¬ Order.keyLt a a := by
  intro hx
  simp only [Order.keyLt] at hx
  rcases hx with hx | hx
  · exact lt_irrefl _ hx
  · exact lt_irrefl _ hx.2

theorem Order.keyLt_asymm {a b : Order} (h : Order.keyLt a b) : ¬ Order.keyLt b a := by
  intro h'
  simp only [Order.keyLt] at h h'
  rcases h with h | h <;> rcases h' with h' | h'
  · linarith
  · linarith [h'.1]
  · linarith [h.1]
  · omega

theorem Order.keyLt_of_keyLt_of_not_keyLt {x y z : Order}
    (h1 : Order.keyLt x y) (h2 : ¬ Order.keyLt z y) : Order.keyLt x z := by
  simp only [Order.keyLt] at h1 h2 ⊢
  push_neg at h2
  rcases h1 with h1 | h1
  · rcases lt_trichotomy y.key.1 z.key.1 with hc | hc | hc
    · exact Or.inl (lt_trans h1 hc)
    · exact Or.inl (hc ▸ h1)
    · exact absurd hc (not_lt.2 h2.1)
  · rcases lt_trichotomy y.key.1 z.key.1 with hc | hc | hc
    · exact Or.inl (h1.1 ▸ hc)
    · refine Or.inr ⟨h1.1.trans hc, ?_⟩
      have hzy := h2.2 hc.symm
      omega
    · exact absurd hc (not_lt.2 h2.1)

/-! ### heappush lemmas -/

theorem heappush_perm (l : List Order) (x : Order) : (heappush l x).Perm (x :: l) := by
  induction l with
  | nil => simp [heappush]
  | cons y ys ih =>
      by_cases h : Order.lt x y = true
      · simp [heappush, h]
      · simp only [heappush, h, if_false, Bool.false_eq_true]
        exact (List.Perm.cons y ih).trans (List.Perm.swap x y ys)

theorem heappush_mem {l : List Order} {x o : Order} :
    o ∈ heappush l x ↔ o = x ∨ o ∈ l := by
  have := (heappush_perm l x).mem_iff (a := o)
  simpa using this

theorem heappush_length (l : List Order) (x : Order) :
    (heappush l x).length = l.length + 1 := by
  simpa using (heappush_perm l x).length_eq

/-- allType: every order in the list has side `t`. -/
def allType (t : OrderType) (l : List Order) : Prop :=
  ∀ o ∈ l, o.order_type = t

/-- sortedQ: the sortedness invariant maintained by `heappush` — every
earlier element is not `__lt__`-greater than any later one. -/
def sortedQ (l : List Order) : Prop :=
  l.Pairwise (fun a b => Order.lt b a = false)

theorem allType_heappush {t : OrderType} {l : List Order} {x : Order}
    (hl : allType t l) (hx : x.order_type = t) : allType t (heappush l x) := by
  intro o ho
  rcases heappush_mem.1 ho with rfl | ho
  · exact hx
  · exact hl o ho

theorem sortedQ_heappush {t : OrderType} {l : List Order} {x : Order}
    (hl : allType t l) (hx : x.order_type = t) (hs : sortedQ l) :
    sortedQ (heappush l x) := by
  induction l with
  | nil => simp [heappush, sortedQ]
  | cons y ys ih =>
      have hy : y.order_type = t := hl y (by simp)
      have hys : allType t ys := fun o ho => hl o (List.mem_cons_of_mem _ ho)
      have hsy : sortedQ ys := (List.pairwise_cons.1 hs).2
      have hhead : ∀ o ∈ ys, Order.lt o y = false := (List.pairwise_cons.1 hs).1
      by_cases h : Order.lt x y = true
      · simp only [heappush, h, if_pos]
        refine List.pairwise_cons.2 ⟨?_, hs⟩
        intro o ho
        rcases List.mem_cons.1 ho with rfl | ho
        · have hk : Order.keyLt x o := (Order.lt_iff_keyLt x o (hx.trans hy.symm)).1 h
          have := Order.keyLt_asymm hk
          by_contra hc
          exact this ((Order.lt_iff_keyLt o x ((hl o (by simp)).trans hx.symm)).1
            (by simpa using hc))
        · have ho' : o.order_type = t := hys o ho
          have hk : Order.keyLt x y := (Order.lt_iff_keyLt x y (hx.trans hy.symm)).1 h
          have hny : ¬ Order.keyLt o y := by
            intro hc
            have := (Order.lt_iff_keyLt o y (ho'.trans hy.symm)).2 hc
            rw [hhead o ho] at this
            exact Bool.false_ne_true this
          have hxo : Order.keyLt x o := Order.keyLt_of_keyLt_of_not_keyLt hk hny
          by_contra hc
          exact (Order.keyLt_asymm hxo)
            ((Order.lt_iff_keyLt o x (ho'.trans hx.symm)).1 (by simpa using hc))
      · simp only [heappush, h, if_neg, Bool.not_eq_true]
        refine List.pairwise_cons.2 ⟨?_, ih hys hsy⟩
        intro o ho
        rcases heappush_mem.1 ho with rfl | ho
        · simpa using h
        · exact hhead o ho

/-- Every element of a sorted queue fails `__lt__` against the head: the
head is a minimum. -/
theorem sortedQ_head_min {t : OrderType} {o : Order} {rest : List Order}
    (hl : allType t (o :: rest)) (hs : sortedQ (o :: rest)) :
    ∀ o' ∈ o :: rest, Order.lt o' o = false := by
  intro o' ho'
  rcases List.mem_cons.1 ho' with rfl | ho'
  · by_contra hc
    exact Order.keyLt_irrefl o'
      ((Order.lt_iff_keyLt o' o' rfl).1 (by simpa using hc))
  · exact (List.pairwise_cons.1 hs).1 o' ho'

/-- A head-minimal BUY queue element beats every member on price, earliest
timestamp on ties. -/
theorem not_keyLt_buy {o o' : Order} (ho : o.order_type = OrderType.BUY)
    (ho' : o'.order_type = OrderType.BUY) (h : ¬ Order.keyLt o' o) :
    o'.price ≤ o.price ∧ (o'.price = o.price → o.timestamp ≤ o'.timestamp) := by
  simp only [Order.keyLt, Order.key, ho, ho', if_pos] at h
  push_neg at h
  constructor
  · linarith [h.1]
  · intro he
    exact h.2 (by rw [he])

/-- A head-minimal SELL queue element beats every member on low price,
earliest timestamp on ties. -/
theorem not_keyLt_sell {o o' : Order} (ho : o.order_type = OrderType.SELL)
    (ho' : o'.order_type = OrderType.SELL) (h : ¬ Order.keyLt o' o) :
    o.price ≤ o'.price ∧ (o'.price = o.price → o.timestamp ≤ o'.timestamp) := by
  simp only [Order.keyLt, Order.key, ho, ho'] at h
  push_neg at h
  constructor
  · exact h.1
  · intro he
    exact h.2 (by rw [he])

/-! ### Order-book well-formedness -/

/-- wf: the per-book invariant — both queues sorted and side-homogeneous. -/
def OrderBook.wf (b : OrderBook) : Prop :=
  sortedQ b.buy_orders ∧ sortedQ b.sell_orders ∧
    allType OrderType.BUY b.buy_orders ∧ allType OrderType.SELL b.sell_orders

theorem OrderBook.wf_init : OrderBook.init.wf := by
  refine ⟨?_, ?_, ?_, ?_⟩ <;> simp [OrderBook.init, sortedQ, allType]

theorem OrderBook.wf_add_order {b : OrderBook} (h : b.wf) (o : Order) :
    (b.add_order o).wf := by
  obtain ⟨hsb, hss, hab, has⟩ := h
  cases ho : o.order_type with
  | BUY =>
      refine ⟨?_, ?_, ?_, ?_⟩ <;> simp only [OrderBook.add_order, ho]
      · exact sortedQ_heappush hab ho hsb
      · exact hss
      · exact allType_heappush hab ho
      · exact has
  | SELL =>
      refine ⟨?_, ?_, ?_, ?_⟩ <;> simp only [OrderBook.add_order, ho]
      · exact hsb
      · exact sortedQ_heappush has ho hss
      · exact hab
      · exact allType_heappush has ho

theorem OrderBook.wf_foldl (orders : List Order) {b : OrderBook} (h : b.wf) :
    (orders.foldl OrderBook.add_order b).wf := by
  induction orders generalizing b with
  | nil => exact h
  | cons o rest ih => exact ih (OrderBook.wf_add_order h o)

/-- The buy queue of a book built by pushes holds exactly the pushed BUY
orders (as a multiset) on top of the initial queue. -/
theorem OrderBook.buy_orders_foldl (orders : List Order) : ∀ b : OrderBook,
    ((orders.foldl OrderBook.add_order b).buy_orders : Multiset Order) =
      (b.buy_orders : Multiset Order) +
        ((orders.filter fun o => o.order_type == OrderType.BUY : List Order) : Multiset Order) := by
  induction orders with
  | nil => intro b; simp
  | cons o rest ih =>
      intro b
      cases ho : o.order_type with
      | BUY =>
          have hstep : ((b.add_order o).buy_orders : Multiset Order) =
              o ::ₘ (b.buy_orders : Multiset Order) := by
            simp [OrderBook.add_order, ho, Multiset.coe_eq_coe.2 (heappush_perm _ _)]
          simp only [List.foldl_cons, ih (b.add_order o), hstep, List.filter_cons, ho]
          simp [Multiset.cons_coe]
          exact List.perm_middle.symm
      | SELL =>
          have hstep : ((b.add_order o).buy_orders : Multiset Order) =
              (b.buy_orders : Multiset Order) := by
            simp [OrderBook.add_order, ho]
          simp only [List.foldl_cons, ih (b.add_order o), hstep, List.filter_cons, ho]
          simp

/-- The sell queue of a book built by pushes holds exactly the pushed SELL
orders (as a multiset) on top of the initial queue. -/
theorem OrderBook.sell_orders_foldl (orders : List Order) : ∀ b : OrderBook,
    ((orders.foldl OrderBook.add_order b).sell_orders : Multiset Order) =
      (b.sell_orders : Multiset Order) +
        ((orders.filter fun o => o.order_type == OrderType.SELL : List Order) : Multiset Order) := by
  induction orders with
  | nil => intro b; simp
  | cons o rest ih =>
      intro b
      cases ho : o.order_type with
      | SELL =>
          have hstep : ((b.add_order o).sell_orders : Multiset Order) =
              o ::ₘ (b.sell_orders : Multiset Order) := by
            simp [OrderBook.add_order, ho, Multiset.coe_eq_coe.2 (heappush_perm _ _)]
          simp only [List.foldl_cons, ih (b.add_order o), hstep, List.filter_cons, ho]
          simp [Multiset.cons_coe]
          exact List.perm_middle.symm
      | BUY =>
          have hstep : ((b.add_order o).sell_orders : Multiset Order) =
              (b.sell_orders : Multiset Order) := by
            simp [OrderBook.add_order, ho]
          simp only [List.foldl_cons, ih (b.add_order o), hstep, List.filter_cons, ho]
          simp

/-! ### Claim C3: price-time priority of the order-book peeks -/

/-- C3: pushing any sequence of orders into one fresh order book, the two
queues rest exactly the pushed orders of their side, the best-buy peek is
a resting buy with maximal price (earliest timestamp among price ties),
and the best-sell peek is a resting sell with minimal price (earliest
timestamp among price ties). -/
theorem claim_C3_price_time_priority (orders : List Order) :
    (((orders.foldl OrderBook.add_order OrderBook.init).buy_orders : Multiset Order) =
        ((orders.filter fun o => o.order_type == OrderType.BUY : List Order) : Multiset Order)) ∧
    (((orders.foldl OrderBook.add_order OrderBook.init).sell_orders : Multiset Order) =
        ((orders.filter fun o => o.order_type == OrderType.SELL : List Order) : Multiset Order)) ∧
    (∀ o, (orders.foldl OrderBook.add_order OrderBook.init).get_best_buy = some o →
      o ∈ (orders.foldl OrderBook.add_order OrderBook.init).buy_orders ∧
        ∀ o' ∈ (orders.foldl OrderBook.add_order OrderBook.init).buy_orders,
          o'.price ≤ o.price ∧ (o'.price = o.price → o.timestamp ≤ o'.timestamp)) ∧
    (∀ o, (orders.foldl OrderBook.add_order OrderBook.init).get_best_sell = some o →
      o ∈ (orders.foldl OrderBook.add_order OrderBook.init).sell_orders ∧
        ∀ o' ∈ (orders.foldl OrderBook.add_order OrderBook.init).sell_orders,
          o.price ≤ o'.price ∧ (o'.price = o.price → o.timestamp ≤ o'.timestamp)) := by
  have hwf : (orders.foldl OrderBook.add_order OrderBook.init).wf :=
    OrderBook.wf_foldl orders OrderBook.wf_init
  obtain ⟨hsb, hss, hab, has⟩ := hwf
  refine ⟨?_, ?_, ?_, ?_⟩
  · simpa [OrderBook.init] using OrderBook.buy_orders_foldl orders OrderBook.init
  · simpa [OrderBook.init] using OrderBook.sell_orders_foldl orders OrderBook.init
  · intro o ho
    rcases hl : (orders.foldl OrderBook.add_order OrderBook.init).buy_orders with _ | ⟨a, tail⟩
    · rw [OrderBook.get_best_buy, hl] at ho
      exact absurd ho (by simp)
    · rw [OrderBook.get_best_buy, hl] at ho
      have hoa : a = o := by simpa using ho
      have hl2 : (orders.foldl OrderBook.add_order OrderBook.init).buy_orders = o :: tail := by
        rw [hl, hoa]
      rw [hl2] at hsb hab
      refine ⟨by rw [hoa]; simp, ?_⟩
      intro o' ho'
      rw [hoa] at ho'
      have hmin := sortedQ_head_min hab hsb o' ho'
      have hko : ¬ Order.keyLt o' o := by
        intro hk
        have hlt := (Order.lt_iff_keyLt o' o
          ((hab o' ho').trans (hab o (by simp)).symm)).2 hk
        rw [hmin] at hlt
        exact Bool.false_ne_true hlt
      exact not_keyLt_buy (hab o (by simp)) (hab o' ho') hko
  · intro o ho
    rcases hl : (orders.foldl OrderBook.add_order OrderBook.init).sell_orders with _ | ⟨a, tail⟩
    · rw [OrderBook.get_best_sell, hl] at ho
      exact absurd ho (by simp)
    · rw [OrderBook.get_best_sell, hl] at ho
      have hoa : a = o := by simpa using ho
      have hl2 : (orders.foldl OrderBook.add_order OrderBook.init).sell_orders = o :: tail := by
        rw [hl, hoa]
      rw [hl2] at hss has
      refine ⟨by rw [hoa]; simp, ?_⟩
      intro o' ho'
      rw [hoa] at ho'
      have hmin := sortedQ_head_min has hss o' ho'
      have hko : ¬ Order.keyLt o' o := by
        intro hk
        have hlt := (Order.lt_iff_keyLt o' o
          ((has o' ho').trans (has o (by simp)).symm)).2 hk
        rw [hmin] at hlt
        exact Bool.false_ne_true hlt
      exact not_keyLt_sell (has o (by simp)) (has o' ho') hko

/-- tickX: a concrete ticker used by witnesses. -/
def tickX : String := "X"

/-- ordB10: a concrete BUY order at price 10. -/
def ordB10 : Order :=
  { order_type := OrderType.BUY, ticker_symbol := tickX, price := 10,
    quantity := 5, timestamp := 0, order_id := 0 }

/-- ordB20: a concrete BUY order at price 20. -/
def ordB20 : Order :=
  { order_type := OrderType.BUY, ticker_symbol := tickX, price := 20,
    quantity := 5, timestamp := 1, order_id := 1 }

/-- ordS7: a concrete SELL order at price 7 (does not cross here; it only
exercises side routing). -/
def ordS7 : Order :=
  { order_type := OrderType.SELL, ticker_symbol := tickX, price := 7,
    quantity := 5, timestamp := 2, order_id := 2 }

/-- Witness for C3 at a concrete push sequence: the peek is the price-20
buy and it dominates the price-10 buy. -/
theorem claim_C3_price_time_priority_witness :
    ([ordB10, ordB20, ordS7].foldl OrderBook.add_order OrderBook.init).get_best_buy =
        some ordB20 ∧
      ordB10.price ≤ ordB20.price := by
  have h := (claim_C3_price_time_priority [ordB10, ordB20, ordS7]).2.2.1 ordB20 (by decide)
  exact ⟨by decide, (h.2 ordB10 (by decide)).1⟩

/-! ### match_pass characterisation lemmas -/

theorem getD_set_index (l : List OrderBook) (index : ℕ) (b : OrderBook) :
    (l.set index b).getD index OrderBook.init =
      if index < l.length then b else OrderBook.init := by
  by_cases h : index < l.length
  · rw [if_pos h]
    exact getD_set_self l index b OrderBook.init h
  · rw [if_neg h]
    refine List.getD_eq_default _ _ ?_
    rw [List.length_set]
    omega

/-- One matching pass on a crossing book: the trade is appended, the
counter bumped, and slot `index` rewritten with the two tails plus the
partially filled remainder (if any). -/
theorem match_pass_cross_eq (e : TradingEngine) (index : ℕ) (bb bs : Order)
    (restB restS : List Order)
    (hb : (e.order_books.getD index OrderBook.init).buy_orders = bb :: restB)
    (hs : (e.order_books.getD index OrderBook.init).sell_orders = bs :: restS)
    (hcross : bs.price ≤ bb.price) :
    e.match_pass index =
      (true,
       { e with
         matches_ := e.matches_ ++ [MatchedOrders.init bb bs e.next_id]
         next_id := e.next_id + 1
         order_books := e.order_books.set index
           (if bs.quantity < bb.quantity then
              OrderBook.add_order
                ⟨(e.order_books.getD index OrderBook.init).ticker_symbol, restB, restS⟩
                { bb with quantity := bb.quantity - bs.quantity }
            else if bb.quantity < bs.quantity then
              OrderBook.add_order
                ⟨(e.order_books.getD index OrderBook.init).ticker_symbol, restB, restS⟩
                { bs with quantity := bs.quantity - bb.quantity }
            else ⟨(e.order_books.getD index OrderBook.init).ticker_symbol, restB, restS⟩) }) := by
  simp only [TradingEngine.match_pass, OrderBook.pop_best_buy, OrderBook.pop_best_sell,
    hb, hs, ge_iff_le, hcross, if_true, gt_iff_lt]

theorem set_oob {α : Type _} (l : List α) (n : ℕ) (a : α) (h : l.length ≤ n) :
    l.set n a = l := by
  induction l generalizing n with
  | nil => rfl
  | cons x xs ih =>
      cases n with
      | zero => simp at h
      | succ m => simp only [List.set]; rw [ih m (by simpa using h)]

/-- One matching pass on a non-crossing book: the pass reports no match,
and both queues of the slot are put back (as multisets) unchanged; the
ledger, counter and the other slots are untouched.  The side-homogeneity
hypotheses reflect the book invariant maintained by `add_order`. -/
theorem match_pass_nocross_state (e : TradingEngine) (index : ℕ)
    (hwb : allType OrderType.BUY (e.order_books.getD index OrderBook.init).buy_orders)
    (hws : allType OrderType.SELL (e.order_books.getD index OrderBook.init).sell_orders)
    (h : (e.match_pass index).1 = false) :
    (e.match_pass index).2.matches_ = e.matches_ ∧
    (e.match_pass index).2.next_id = e.next_id ∧
    (e.match_pass index).2.size = e.size ∧
    (e.match_pass index).2.hash_ = e.hash_ ∧
    (e.match_pass index).2.trade_locks = e.trade_locks ∧
    ((((e.match_pass index).2.order_books.getD index OrderBook.init).buy_orders : Multiset Order) =
      (((e.order_books.getD index OrderBook.init).buy_orders : List Order) : Multiset Order)) ∧
    ((((e.match_pass index).2.order_books.getD index OrderBook.init).sell_orders : Multiset Order) =
      (((e.order_books.getD index OrderBook.init).sell_orders : List Order) : Multiset Order)) ∧
    (((e.match_pass index).2.order_books.getD index OrderBook.init).ticker_symbol =
      (e.order_books.getD index OrderBook.init).ticker_symbol) ∧
    (∀ j, j ≠ index →
      (e.match_pass index).2.order_books.getD j OrderBook.init =
        e.order_books.getD j OrderBook.init) := by
  by_cases hlen : index < e.order_books.length
  case neg =>
    have hinit : e.order_books.getD index OrderBook.init = OrderBook.init :=
      List.getD_eq_default _ _ (by omega)
    have hbuy : OrderBook.init.buy_orders = ([] : List Order) := rfl
    have hsell : OrderBook.init.sell_orders = ([] : List Order) := rfl
    have hempty : (e.match_pass index) =
        (false, { e with order_books := e.order_books.set index OrderBook.init }) := by
      simp only [TradingEngine.match_pass, hinit, OrderBook.pop_best_buy,
        OrderBook.pop_best_sell, hbuy, hsell]
    rw [hempty]
    have hset : e.order_books.set index OrderBook.init = e.order_books :=
      set_oob _ _ _ (by omega)
    simp [hset]
  case pos =>
    rcases hb : (e.order_books.getD index OrderBook.init).buy_orders with _ | ⟨bb, restB⟩ <;>
      rcases hs : (e.order_books.getD index OrderBook.init).sell_orders with _ | ⟨bs, restS⟩
    · have heq : (e.match_pass index) =
          (false,
           { e with
             order_books :=
               e.order_books.set index (e.order_books.getD index OrderBook.init) }) := by
        simp only [TradingEngine.match_pass, OrderBook.pop_best_buy, OrderBook.pop_best_sell,
          hb, hs]
      rw [heq]
      refine ⟨rfl, rfl, rfl, rfl, rfl, ?_, ?_, ?_, ?_⟩
      · rw [getD_set_index, if_pos hlen, hb]
      · rw [getD_set_index, if_pos hlen, hs]
      · rw [getD_set_index, if_pos hlen]
      · intro j hj
        exact getD_set_of_ne _ _ _ _ _ (fun hx => hj hx.symm)
    · have hot : bs.order_type = OrderType.SELL := hws bs (by rw [hs]; simp)
      have heq : (e.match_pass index) =
          (false,
           { e with
             order_books := e.order_books.set index
               (OrderBook.add_order
                 ⟨(e.order_books.getD index OrderBook.init).ticker_symbol, [], restS⟩ bs) }) := by
        simp only [TradingEngine.match_pass, OrderBook.pop_best_buy, OrderBook.pop_best_sell,
          hb, hs]
      rw [heq]
      refine ⟨rfl, rfl, rfl, rfl, rfl, ?_, ?_, ?_, ?_⟩
      · simp only [getD_set_index, if_pos hlen, OrderBook.add_order, hot, hb]
      · simp only [getD_set_index, if_pos hlen, OrderBook.add_order, hot, hs]
        exact Multiset.coe_eq_coe.2 (heappush_perm restS bs)
      · simp only [getD_set_index, if_pos hlen, OrderBook.add_order, hot]
      · intro j hj
        exact getD_set_of_ne _ _ _ _ _ (fun hx => hj hx.symm)
    · have hot : bb.order_type = OrderType.BUY := hwb bb (by rw [hb]; simp)
      have heq : (e.match_pass index) =
          (false,
           { e with
             order_books := e.order_books.set index
               (OrderBook.add_order
                 ⟨(e.order_books.getD index OrderBook.init).ticker_symbol, restB, []⟩ bb) }) := by
        simp only [TradingEngine.match_pass, OrderBook.pop_best_buy, OrderBook.pop_best_sell,
          hb, hs]
      rw [heq]
      refine ⟨rfl, rfl, rfl, rfl, rfl, ?_, ?_, ?_, ?_⟩
      · simp only [getD_set_index, if_pos hlen, OrderBook.add_order, hot, hb]
        exact Multiset.coe_eq_coe.2 (heappush_perm restB bb)
      · simp only [getD_set_index, if_pos hlen, OrderBook.add_order, hot, hs]
      · simp only [getD_set_index, if_pos hlen, OrderBook.add_order, hot]
      · intro j hj
        exact getD_set_of_ne _ _ _ _ _ (fun hx => hj hx.symm)
    · by_cases hcross : bs.price ≤ bb.price
      · exfalso
        have htrue : (e.match_pass index).1 = true := by
          rw [match_pass_cross_eq e index bb bs restB restS hb hs hcross]
        rw [htrue] at h
        exact Bool.noConfusion h
      · have hotb : bb.order_type = OrderType.BUY := hwb bb (by rw [hb]; simp)
        have hots : bs.order_type = OrderType.SELL := hws bs (by rw [hs]; simp)
        have heq : (e.match_pass index) =
            (false,
             { e with
               order_books := e.order_books.set index
                 (OrderBook.add_order
                   (OrderBook.add_order
                     ⟨(e.order_books.getD index OrderBook.init).ticker_symbol, restB, restS⟩
                     bb)
                   bs) }) := by
          simp only [TradingEngine.match_pass, OrderBook.pop_best_buy, OrderBook.pop_best_sell,
            hb, hs, ge_iff_le, hcross, if_false]
        rw [heq]
        refine ⟨rfl, rfl, rfl, rfl, rfl, ?_, ?_, ?_, ?_⟩
        · simp only [getD_set_index, if_pos hlen, OrderBook.add_order, hotb, hots, hb]
          exact Multiset.coe_eq_coe.2 (heappush_perm restB bb)
        · simp only [getD_set_index, if_pos hlen, OrderBook.add_order, hotb, hots, hs]
          exact Multiset.coe_eq_coe.2 (heappush_perm restS bs)
        · simp only [getD_set_index, if_pos hlen, OrderBook.add_order, hotb, hots]
        · intro j hj
          exact getD_set_of_ne _ _ _ _ _ (fun hx => hj hx.symm)

/-! ### Claims C1, C2, C7: the per-slot matching pass -/

/-- C1: in one pass of the per-slot matching transaction, a trade is
created iff a best buy and a best sell both exist and the best buy's
price is at least the best sell's price; every trade created records the
matched sell order's price as its execution price (and the two order
ids). -/
theorem claim_C1_crossing_iff (e : TradingEngine) (index : ℕ) :
    ((e.match_pass index).1 = true ↔
      ∃ bb bs : Order,
        (e.order_books.getD index OrderBook.init).get_best_buy = some bb ∧
        (e.order_books.getD index OrderBook.init).get_best_sell = some bs ∧
        bs.price ≤ bb.price) ∧
    (∀ bb bs : Order,
      (e.order_books.getD index OrderBook.init).get_best_buy = some bb →
      (e.order_books.getD index OrderBook.init).get_best_sell = some bs →
      bs.price ≤ bb.price →
      (e.match_pass index).2.matches_ =
          e.matches_ ++ [MatchedOrders.init bb bs e.next_id] ∧
        (MatchedOrders.init bb bs e.next_id).price = bs.price ∧
        (MatchedOrders.init bb bs e.next_id).buy_order_id = bb.order_id ∧
        (MatchedOrders.init bb bs e.next_id).sell_order_id = bs.order_id) ∧
    ((e.match_pass index).1 = false → (e.match_pass index).2.matches_ = e.matches_) := by
  rcases hb : (e.order_books.getD index OrderBook.init).buy_orders with _ | ⟨bb0, restB⟩ <;>
    rcases hs : (e.order_books.getD index OrderBook.init).sell_orders with _ | ⟨bs0, restS⟩
  · have hflag : e.match_pass index =
        (false,
         { e with
           order_books :=
             e.order_books.set index (e.order_books.getD index OrderBook.init) }) := by
      simp only [TradingEngine.match_pass, OrderBook.pop_best_buy, OrderBook.pop_best_sell,
        hb, hs]
    refine ⟨?_, ?_, ?_⟩
    · constructor
      · intro hx
        rw [hflag] at hx
        exact Bool.noConfusion hx
      · rintro ⟨bb, bs, h1, h2, h3⟩
        rw [OrderBook.get_best_buy, hb] at h1
        exact Option.noConfusion h1
    · intro bb bs h1 h2 h3
      rw [OrderBook.get_best_buy, hb] at h1
      exact absurd h1 (by simp)
    · intro _
      rw [hflag]
  · have hflag : e.match_pass index =
        (false,
         { e with
           order_books := e.order_books.set index
             (OrderBook.add_order
               ⟨(e.order_books.getD index OrderBook.init).ticker_symbol, [], restS⟩ bs0) }) := by
      simp only [TradingEngine.match_pass, OrderBook.pop_best_buy, OrderBook.pop_best_sell,
        hb, hs]
    refine ⟨?_, ?_, ?_⟩
    · constructor
      · intro hx
        rw [hflag] at hx
        exact Bool.noConfusion hx
      · rintro ⟨bb, bs, h1, h2, h3⟩
        rw [OrderBook.get_best_buy, hb] at h1
        exact Option.noConfusion h1
    · intro bb bs h1 h2 h3
      rw [OrderBook.get_best_buy, hb] at h1
      exact absurd h1 (by simp)
    · intro _
      rw [hflag]
  · have hflag : e.match_pass index =
        (false,
         { e with
           order_books := e.order_books.set index
             (OrderBook.add_order
               ⟨(e.order_books.getD index OrderBook.init).ticker_symbol, restB, []⟩ bb0) }) := by
      simp only [TradingEngine.match_pass, OrderBook.pop_best_buy, OrderBook.pop_best_sell,
        hb, hs]
    refine ⟨?_, ?_, ?_⟩
    · constructor
      · intro hx
        rw [hflag] at hx
        exact Bool.noConfusion hx
      · rintro ⟨bb, bs, h1, h2, h3⟩
        rw [OrderBook.get_best_sell, hs] at h2
        exact Option.noConfusion h2
    · intro bb bs h1 h2 h3
      rw [OrderBook.get_best_sell, hs] at h2
      exact absurd h2 (by simp)
    · intro _
      rw [hflag]
  · by_cases hcross : bs0.price ≤ bb0.price
    · have heq := match_pass_cross_eq e index bb0 bs0 restB restS hb hs hcross
      refine ⟨?_, ?_, ?_⟩
      · rw [heq]
        simp only [true_iff]
        exact ⟨bb0, bs0, by rw [OrderBook.get_best_buy, hb]; rfl,
          by rw [OrderBook.get_best_sell, hs]; rfl, hcross⟩
      · intro bb bs h1 h2 h3
        rw [OrderBook.get_best_buy, hb] at h1
        rw [OrderBook.get_best_sell, hs] at h2
        have hbb : bb0 = bb := by simpa using h1
        have hbs : bs0 = bs := by simpa using h2
        rw [← hbb, ← hbs, heq]
        exact ⟨rfl, rfl, rfl, rfl⟩
      · intro hfalse
        rw [heq] at hfalse
        exact Bool.noConfusion hfalse
    · have hflag : e.match_pass index =
          (false,
           { e with
             order_books := e.order_books.set index
               (OrderBook.add_order
                 (OrderBook.add_order
                   ⟨(e.order_books.getD index OrderBook.init).ticker_symbol, restB, restS⟩
                   bb0)
                 bs0) }) := by
        simp only [TradingEngine.match_pass, OrderBook.pop_best_buy, OrderBook.pop_best_sell,
          hb, hs, ge_iff_le, hcross, if_false]
      refine ⟨?_, ?_, ?_⟩
      · constructor
        · intro hx
          rw [hflag] at hx
          exact Bool.noConfusion hx
        · rintro ⟨bb, bs, h1, h2, h3⟩
          rw [OrderBook.get_best_buy, hb] at h1
          rw [OrderBook.get_best_sell, hs] at h2
          have hbb : bb0 = bb := by simpa using h1
          have hbs : bs0 = bs := by simpa using h2
          rw [← hbb, ← hbs] at h3
          exact absurd h3 hcross
      · intro bb bs h1 h2 h3
        rw [OrderBook.get_best_buy, hb] at h1
        rw [OrderBook.get_best_sell, hs] at h2
        have hbb : bb0 = bb := by simpa using h1
        have hbs : bs0 = bs := by simpa using h2
        rw [← hbb, ← hbs] at h3
        exact absurd h3 hcross
      · intro _
        rw [hflag]

/-- wBuy: the concrete resting BUY 100@50 used by witnesses. -/
def wBuy : Order :=
  { order_type := OrderType.BUY, ticker_symbol := tickX, price := 50,
    quantity := 100, timestamp := 0, order_id := 0 }

/-- wSell: the concrete resting SELL 40@45 used by witnesses. -/
def wSell : Order :=
  { order_type := OrderType.SELL, ticker_symbol := tickX, price := 45,
    quantity := 40, timestamp := 1, order_id := 1 }

/-- wEngine: a one-slot engine whose book rests wBuy and wSell. -/
def wEngine : TradingEngine :=
  { size := 1
    order_books := [⟨some tickX, [wBuy], [wSell]⟩]
    trade_locks := [true]
    matches_ := []
    hash_ := fun _ => 0
    next_id := 2 }

/-- Witness for C1: on the crossing book of wEngine the pass reports a
match and appends the trade priced at the sell's 45. -/
theorem claim_C1_crossing_iff_witness :
    (wEngine.match_pass 0).1 = true ∧
      (wEngine.match_pass 0).2.matches_ =
        wEngine.matches_ ++ [MatchedOrders.init wBuy wSell wEngine.next_id] ∧
      (MatchedOrders.init wBuy wSell wEngine.next_id).price = wSell.price := by
  have h := claim_C1_crossing_iff wEngine 0
  have h2 := h.2.1 wBuy wSell (by decide) (by decide) (by decide)
  exact ⟨h.1.2 ⟨wBuy, wSell, by decide, by decide, by decide⟩, h2.1, h2.2.1⟩

/-- C2: a crossing match of a buy with remaining quantity `qb` and a sell
with remaining quantity `qs` (both positive) records a trade of quantity
`min qb qs`; if `qb > qs` only the buy is pushed back, with quantity
`qb - qs`; if `qb < qs` only the sell is pushed back, with quantity
`qs - qb`; if `qb = qs` neither is pushed back. -/
theorem claim_C2_quantity_conservation (e : TradingEngine) (index : ℕ) (bb bs : Order)
    (restB restS : List Order)
    (hb : (e.order_books.getD index OrderBook.init).buy_orders = bb :: restB)
    (hs : (e.order_books.getD index OrderBook.init).sell_orders = bs :: restS)
    (hcross : bs.price ≤ bb.price)
    (hqb : 0 < bb.quantity) (hqs : 0 < bs.quantity)
    (hbt : bb.order_type = OrderType.BUY) (hst : bs.order_type = OrderType.SELL) :
    (e.match_pass index).2.matches_ =
        e.matches_ ++ [MatchedOrders.init bb bs e.next_id] ∧
    (MatchedOrders.init bb bs e.next_id).quantity = min bb.quantity bs.quantity ∧
    (bs.quantity < bb.quantity →
      ((((e.match_pass index).2.order_books.getD index OrderBook.init).buy_orders :
          List Order) : Multiset Order) =
        { bb with quantity := bb.quantity - bs.quantity } ::ₘ (restB : Multiset Order) ∧
      ((e.match_pass index).2.order_books.getD index OrderBook.init).sell_orders = restS) ∧
    (bb.quantity < bs.quantity →
      ((e.match_pass index).2.order_books.getD index OrderBook.init).buy_orders = restB ∧
      ((((e.match_pass index).2.order_books.getD index OrderBook.init).sell_orders :
          List Order) : Multiset Order) =
        { bs with quantity := bs.quantity - bb.quantity } ::ₘ (restS : Multiset Order)) ∧
    (bb.quantity = bs.quantity →
      ((e.match_pass index).2.order_books.getD index OrderBook.init).buy_orders = restB ∧
      ((e.match_pass index).2.order_books.getD index OrderBook.init).sell_orders = restS) := by
  have hlen : index < e.order_books.length := by
    by_contra hx
    rw [List.getD_eq_default _ _ (by omega)] at hb
    exact absurd hb (by simp [OrderBook.init])
  have heq := match_pass_cross_eq e index bb bs restB restS hb hs hcross
  rw [heq]
  refine ⟨rfl, rfl, ?_, ?_, ?_⟩
  · intro hlt
    have hgt : ¬ bb.quantity < bs.quantity := by linarith
    constructor
    · simp only [getD_set_index, if_pos hlen, if_pos hlt, OrderBook.add_order, hbt]
      exact Multiset.coe_eq_coe.2 (heappush_perm restB _)
    · simp only [getD_set_index, if_pos hlen, if_pos hlt, OrderBook.add_order, hbt]
  · intro hlt
    have hns : ¬ bs.quantity < bb.quantity := by linarith
    constructor
    · simp only [getD_set_index, if_pos hlen, if_neg hns, if_pos hlt, OrderBook.add_order, hst]
    · simp only [getD_set_index, if_pos hlen, if_neg hns, if_pos hlt, OrderBook.add_order, hst]
      exact Multiset.coe_eq_coe.2 (heappush_perm restS _)
  · intro heqq
    have hn1 : ¬ bs.quantity < bb.quantity := by rw [heqq]; exact lt_irrefl _
    have hn2 : ¬ bb.quantity < bs.quantity := by rw [heqq]; exact lt_irrefl _
    constructor
    · simp only [getD_set_index, if_pos hlen, if_neg hn1, if_neg hn2]
    · simp only [getD_set_index, if_pos hlen, if_neg hn1, if_neg hn2]

/-- Witness for C2 on wEngine: the trade fills 40, the buy is requeued
with 60, the sell is fully removed. -/
theorem claim_C2_quantity_conservation_witness :
    (wEngine.match_pass 0).2.matches_ =
        wEngine.matches_ ++ [MatchedOrders.init wBuy wSell wEngine.next_id] ∧
      (MatchedOrders.init wBuy wSell wEngine.next_id).quantity = 40 ∧
      (((wEngine.match_pass 0).2.order_books.getD 0 OrderBook.init).buy_orders :
          Multiset Order) =
        { wBuy with quantity := 60 } ::ₘ (([] : List Order) : Multiset Order) ∧
      ((wEngine.match_pass 0).2.order_books.getD 0 OrderBook.init).sell_orders = [] := by
  have h := claim_C2_quantity_conservation wEngine 0 wBuy wSell [] [] rfl rfl
    (by decide) (by decide) (by decide) rfl rfl
  have h3 := h.2.2.1 (by decide)
  refine ⟨h.1, ?_, ?_, h3.2⟩
  · rw [h.2.1]
    have h40 : wSell.quantity ≤ wBuy.quantity := by norm_num [wBuy, wSell]
    rw [min_eq_right h40]
    norm_num [wSell]
  · have hq : wBuy.quantity - wSell.quantity = (60 : ℚ) := by norm_num [wBuy, wSell]
    have hader := h3.1
    rw [hq] at hader
    exact hader

/-- C7: a matching pass that finds no cross leaves the slot's resting
multisets (both sides) exactly as they were, appends no trade, touches no
other slot, and the matching loop stops with that state. -/
theorem claim_C7_no_cross_frame (e : TradingEngine) (index : ℕ)
    (hwb : allType OrderType.BUY (e.order_books.getD index OrderBook.init).buy_orders)
    (hws : allType OrderType.SELL (e.order_books.getD index OrderBook.init).sell_orders)
    (h : (e.match_pass index).1 = false) :
    ((((e.match_pass index).2.order_books.getD index OrderBook.init).buy_orders :
        List Order) : Multiset Order) =
      (((e.order_books.getD index OrderBook.init).buy_orders : List Order) : Multiset Order) ∧
    ((((e.match_pass index).2.order_books.getD index OrderBook.init).sell_orders :
        List Order) : Multiset Order) =
      (((e.order_books.getD index OrderBook.init).sell_orders : List Order) : Multiset Order) ∧
    (e.match_pass index).2.matches_ = e.matches_ ∧
    (∀ j, j ≠ index →
      (e.match_pass index).2.order_books.getD j OrderBook.init =
        e.order_books.getD j OrderBook.init) ∧
    (∀ fuel : ℕ, e.match_loop index (fuel + 1) = (e.match_pass index).2) := by
  have hst := match_pass_nocross_state e index hwb hws h
  refine ⟨hst.2.2.2.2.2.1, hst.2.2.2.2.2.2.1, hst.1, hst.2.2.2.2.2.2.2.2, ?_⟩
  intro fuel
  simp only [TradingEngine.match_loop, h, if_false, Bool.false_eq_true]

/-- w7Engine: a one-slot engine resting a BUY at 10 against a SELL at 20
(the spec's no-spurious-match pair). -/
def w7Engine : TradingEngine :=
  { size := 1
    order_books := [⟨some tickX,
      [{ order_type := OrderType.BUY, ticker_symbol := tickX, price := 10,
         quantity := 1, timestamp := 0, order_id := 0 }],
      [{ order_type := OrderType.SELL, ticker_symbol := tickX, price := 20,
         quantity := 1, timestamp := 1, order_id := 1 }]⟩]
    trade_locks := [true]
    matches_ := []
    hash_ := fun _ => 0
    next_id := 2 }

/-- Witness for C7: BUY at 10 against SELL at 20 produces no trade and
the loop stops with the ledger still empty. -/
theorem claim_C7_no_cross_frame_witness :
    (w7Engine.match_pass 0).2.matches_ = w7Engine.matches_ ∧
      w7Engine.match_loop 0 1 = (w7Engine.match_pass 0).2 := by
  have h := claim_C7_no_cross_frame w7Engine 0
    (by intro o ho; fin_cases ho; rfl)
    (by intro o ho; fin_cases ho; rfl)
    (by decide)
  exact ⟨h.2.2.1, h.2.2.2.2 0⟩

/-! ### Probe-loop lemmas -/

theorem firstSat_eq_none {p : ℕ → Bool} : ∀ {i0 fuel : ℕ},
    (∀ m, i0 ≤ m → m < i0 + fuel → p m = false) → firstSat p i0 fuel = none := by
  intro i0 fuel
  induction fuel generalizing i0 with
  | zero => intro _; rfl
  | succ n ih =>
      intro h
      have h0 : p i0 = false := h i0 (le_refl _) (by omega)
      simp only [firstSat, h0, Bool.false_eq_true, if_false]
      exact ih fun m hm1 hm2 => h m (by omega) (by omega)

theorem firstSat_eq_some {p : ℕ → Bool} : ∀ {i0 fuel k : ℕ},
    firstSat p i0 fuel = some k →
      i0 ≤ k ∧ k < i0 + fuel ∧ p k = true ∧ ∀ m, i0 ≤ m → m < k → p m = false := by
  intro i0 fuel
  induction fuel generalizing i0 with
  | zero => intro k h; exact absurd h (by simp [firstSat])
  | succ n ih =>
      intro k h
      by_cases h0 : p i0 = true
      · simp only [firstSat, h0, if_true] at h
        have hk : i0 = k := by simpa using h
        subst hk
        exact ⟨le_refl _, by omega, h0, fun m hm1 hm2 => by omega⟩
      · simp only [firstSat, h0, if_false] at h
        obtain ⟨h1, h2, h3, h4⟩ := ih h
        refine ⟨by omega, by omega, h3, ?_⟩
        intro m hm1 hm2
        rcases Nat.eq_or_lt_of_le hm1 with rfl | hlt
        · simpa using h0
        · exact h4 m (by omega) hm2

theorem firstSat_intro {p : ℕ → Bool} : ∀ {i0 fuel k : ℕ},
    i0 ≤ k → k < i0 + fuel → p k = true →
      (∀ m, i0 ≤ m → m < k → p m = false) → firstSat p i0 fuel = some k := by
  intro i0 fuel
  induction fuel generalizing i0 with
  | zero => intro k h1 h2; omega
  | succ n ih =>
      intro k h1 h2 h3 h4
      rcases Nat.eq_or_lt_of_le h1 with rfl | hlt
      · simp only [firstSat, h3, if_true]
      · have h0 : p i0 = false := h4 i0 (le_refl _) hlt
        simp only [firstSat, h0, Bool.false_eq_true, if_false]
        exact ih (by omega) (by omega) h3 fun m hm1 hm2 => h4 m (by omega) hm2

/-! ### Claims C4, C5: submission validation and capacity -/

/-- C4: a submit with non-positive quantity or price fails with
InvalidOrder and leaves the engine unchanged; a valid submit on a
resolvable ticker returns the fresh id `next_id`, pushes the new order
into the resolved slot's book, and the fresh id collides with no resting
order id (given the counter invariant); `add_order` routes the order to
the queue of its side. -/
theorem claim_C4_submit_validation (e : TradingEngine) (ot : OrderType) (t : String)
    (q p : ℚ) :
    ((q ≤ 0 ∨ p ≤ 0) →
      e.addOrder ot t q p = (Except.error EngineError.InvalidOrder, e)) ∧
    (¬(q ≤ 0 ∨ p ≤ 0) →
      ∀ (index : ℕ) (e2 : TradingEngine), e.ticker_to_index t = (some index, e2) →
        (e.addOrder ot t q p).1 = Except.ok e.next_id ∧
        (e.addOrder ot t q p).2 =
          { e2 with
            order_books := e2.order_books.set index
              ((e2.order_books.getD index OrderBook.init).add_order
                { order_type := ot, ticker_symbol := t, price := p, quantity := q,
                  timestamp := e.next_id, order_id := e.next_id })
            next_id := e2.next_id + 1 }) ∧
    ((∀ b ∈ e.order_books, ∀ o : Order, o ∈ b.buy_orders ++ b.sell_orders →
        o.order_id < e.next_id) →
      ∀ b ∈ e.order_books, ∀ o : Order, o ∈ b.buy_orders ++ b.sell_orders →
        o.order_id ≠ e.next_id) ∧
    (∀ (b : OrderBook) (o : Order),
      (o.order_type = OrderType.BUY →
        o ∈ (b.add_order o).buy_orders ∧ (b.add_order o).sell_orders = b.sell_orders) ∧
      (o.order_type = OrderType.SELL →
        o ∈ (b.add_order o).sell_orders ∧ (b.add_order o).buy_orders = b.buy_orders)) := by
  refine ⟨?_, ?_, ?_, ?_⟩
  · intro h
    simp only [TradingEngine.addOrder, if_pos h]
  · intro h index e2 hres
    simp only [TradingEngine.addOrder, if_neg h, hres]
    exact ⟨trivial, trivial⟩
  · intro h b hb o ho
    exact Nat.ne_of_lt (h b hb o ho)
  · intro b o
    constructor
    · intro hot
      simp only [OrderBook.add_order, hot]
      exact ⟨heappush_mem.2 (Or.inl rfl), trivial⟩
    · intro hot
      simp only [OrderBook.add_order, hot]
      exact ⟨heappush_mem.2 (Or.inl rfl), trivial⟩

/-- hash0: the concrete hash function used by witnesses (constant 0). -/
def hash0 : String → ℕ := fun _ => 0

/-- Witness for C4: on a fresh engine, quantity 0 is rejected with no
state change, and a valid BUY for ticker X returns id 0. -/
theorem claim_C4_submit_validation_witness :
    (TradingEngine.init hash0).addOrder OrderType.BUY tickX 0 50 =
        (Except.error EngineError.InvalidOrder, TradingEngine.init hash0) ∧
      ((TradingEngine.init hash0).addOrder OrderType.BUY tickX 100 50).1 =
        Except.ok 0 := by
  have h := claim_C4_submit_validation (TradingEngine.init hash0) OrderType.BUY tickX 100 50
  have h0 := claim_C4_submit_validation (TradingEngine.init hash0) OrderType.BUY tickX 0 50
  have heq : (TradingEngine.init hash0).ticker_to_index tickX =
      (some 0, ((TradingEngine.init hash0).ticker_to_index tickX).2) := by
    have h1 : ((TradingEngine.init hash0).ticker_to_index tickX).1 = some 0 := rfl
    exact Prod.ext h1 rfl
  refine ⟨h0.1 (Or.inl (by norm_num)), ?_⟩
  exact (h.2.1 (by norm_num) 0 _ heq).1

/-- C5: when every slot of the directory is occupied by a (non-empty)
ticker other than `t`, resolving `t` probes the whole directory, fails,
and mutates nothing; a valid submit for `t` then fails with
CapacityExceeded, leaving the engine — in particular every previously
assigned slot — untouched. -/
theorem claim_C5_capacity_exceeded (e : TradingEngine) (t : String) (ot : OrderType)
    (q p : ℚ) (hsz : 0 < e.size) (hlen : e.order_books.length = e.size)
    (hocc : ∀ b ∈ e.order_books, ∃ s, b.ticker_symbol = some s ∧ s ≠ "" ∧ s ≠ t) :
    e.ticker_to_index t = (none, e) ∧
    (¬(q ≤ 0 ∨ p ≤ 0) →
      e.addOrder ot t q p = (Except.error EngineError.CapacityExceeded, e)) := by
  have hclaim : ∀ j : ℕ, j < e.order_books.length →
      claimable (e.order_books.getD j OrderBook.init).ticker_symbol t = false := by
    intro j hj
    have hmem : e.order_books.getD j OrderBook.init ∈ e.order_books := by
      rw [List.getD_eq_getElem _ _ hj]
      exact List.getElem_mem _
    obtain ⟨s, hsome, hne, hnt⟩ := hocc _ hmem
    have h1 : (some s == some t) = false := by
      cases hx : (some s == some t)
      · rfl
      · have hxx : some s = some t := eq_of_beq hx
        exact absurd (by injection hxx) hnt
    have h2 : tickerFalsy (some s) = false := by
      show s.isEmpty = false
      cases hx : s.isEmpty
      · rfl
      · exact absurd ((String.isEmpty_iff s).1 hx) hne
    rw [claimable, hsome, h1, h2]
    rfl
  have hnone : e.ticker_to_index t = (none, e) := by
    have hhome :
        claimable (e.order_books.getD (e.hash_ t % e.size) OrderBook.init).ticker_symbol t =
          false :=
      hclaim _ (by rw [hlen]; exact Nat.mod_lt _ hsz)
    have hfs : firstSat (e.slotClaimable t (e.hash_ t % e.size)) 0 e.size = none := by
      apply firstSat_eq_none
      intro m hm1 hm2
      unfold TradingEngine.slotClaimable
      exact hclaim _ (by rw [hlen]; exact Nat.mod_lt _ hsz)
    simp only [TradingEngine.ticker_to_index, hhome, Bool.false_eq_true, if_false, hfs]
  refine ⟨hnone, ?_⟩
  intro hq
  simp only [TradingEngine.addOrder, if_neg hq, hnone]

/-- tickA, tickB, tickC: concrete tickers used by the capacity witness. -/
def tickA : String := "A"

/-- tickB: see tickA. -/
def tickB : String := "B"

/-- tickC: see tickA. -/
def tickC : String := "C"

/-- fullEngine: a two-slot directory fully occupied by tickers A and B. -/
def fullEngine : TradingEngine :=
  { size := 2
    order_books := [⟨some tickA, [], []⟩, ⟨some tickB, [], []⟩]
    trade_locks := [true, true]
    matches_ := []
    hash_ := hash0
    next_id := 0 }

/-- Witness for C5: submitting a third ticker C into the full two-slot
directory fails with CapacityExceeded and the engine is unchanged. -/
theorem claim_C5_capacity_exceeded_witness :
    fullEngine.ticker_to_index tickC = (none, fullEngine) ∧
      fullEngine.addOrder OrderType.BUY tickC 1 1 =
        (Except.error EngineError.CapacityExceeded, fullEngine) := by
  have h := claim_C5_capacity_exceeded fullEngine tickC OrderType.BUY 1 1
    (by decide) rfl ?_
  · exact ⟨h.1, h.2 (by norm_num)⟩
  · intro b hb
    rcases List.mem_pair.1 hb with rfl | rfl
    · exact ⟨tickA, rfl, by decide, by decide⟩
    · exact ⟨tickB, rfl, by decide, by decide⟩

/-! ### Claim C9: termination of the matching loop -/

theorem add_order_length (b : OrderBook) (o : Order) :
    (b.add_order o).buy_orders.length + (b.add_order o).sell_orders.length =
      b.buy_orders.length + b.sell_orders.length + 1 := by
  cases ho : o.order_type <;>
    · simp [OrderBook.add_order, ho, heappush_length]
      omega

/-- A pass that trades strictly shrinks the slot's resting-order count. -/
theorem match_pass_true_decrease (e : TradingEngine) (index : ℕ)
    (h : (e.match_pass index).1 = true) :
    (e.match_pass index).2.slotCount index < e.slotCount index := by
  rcases hb : (e.order_books.getD index OrderBook.init).buy_orders with _ | ⟨bb, restB⟩ <;>
    rcases hs : (e.order_books.getD index OrderBook.init).sell_orders with _ | ⟨bs, restS⟩
  · have hflag : (e.match_pass index).1 = false := by
      simp only [TradingEngine.match_pass, OrderBook.pop_best_buy, OrderBook.pop_best_sell,
        hb, hs]
    rw [hflag] at h
    exact Bool.noConfusion h
  · have hflag : (e.match_pass index).1 = false := by
      simp only [TradingEngine.match_pass, OrderBook.pop_best_buy, OrderBook.pop_best_sell,
        hb, hs]
    rw [hflag] at h
    exact Bool.noConfusion h
  · have hflag : (e.match_pass index).1 = false := by
      simp only [TradingEngine.match_pass, OrderBook.pop_best_buy, OrderBook.pop_best_sell,
        hb, hs]
    rw [hflag] at h
    exact Bool.noConfusion h
  · by_cases hcross : bs.price ≤ bb.price
    · have heq := match_pass_cross_eq e index bb bs restB restS hb hs hcross
      have hlen : index < e.order_books.length := by
        by_contra hx
        rw [List.getD_eq_default _ _ (by omega)] at hb
        exact absurd hb (by simp [OrderBook.init])
      rw [heq]
      have horig : e.slotCount index = restB.length + 1 + (restS.length + 1) := by
        unfold TradingEngine.slotCount
        rw [hb, hs]
        simp
      rw [horig]
      simp only [TradingEngine.slotCount, getD_set_index, if_pos hlen]
      by_cases h1 : bs.quantity < bb.quantity
      · simp only [if_pos h1]
        rw [add_order_length]
        show restB.length + restS.length + 1 < restB.length + 1 + (restS.length + 1)
        omega
      · simp only [if_neg h1]
        by_cases h2 : bb.quantity < bs.quantity
        · simp only [if_pos h2]
          rw [add_order_length]
          show restB.length + restS.length + 1 < restB.length + 1 + (restS.length + 1)
          omega
        · simp only [if_neg h2]
          show restB.length + restS.length < restB.length + 1 + (restS.length + 1)
          omega
    · have hflag : (e.match_pass index).1 = false := by
        simp only [TradingEngine.match_pass, OrderBook.pop_best_buy, OrderBook.pop_best_sell,
          hb, hs, ge_iff_le, hcross, if_false]
      rw [hflag] at h
      exact Bool.noConfusion h

/-- The matching loop's result does not depend on the fuel once the fuel
exceeds the resting-order count: the loop stops by itself. -/
theorem match_loop_fuel_indep : ∀ (n : ℕ) (e : TradingEngine) (index fuel1 fuel2 : ℕ),
    e.slotCount index ≤ n → e.slotCount index < fuel1 → e.slotCount index < fuel2 →
    e.match_loop index fuel1 = e.match_loop index fuel2 := by
  intro n
  induction n with
  | zero =>
      intro e index fuel1 fuel2 h0 h1 h2
      cases fuel1 with
      | zero => omega
      | succ a =>
          cases fuel2 with
          | zero => omega
          | succ b =>
              by_cases hflag : (e.match_pass index).1 = true
              · exfalso
                have := match_pass_true_decrease e index hflag
                omega
              · have hf : (e.match_pass index).1 = false := by
                  cases hx : (e.match_pass index).1
                  · rfl
                  · exact absurd hx hflag
                simp only [TradingEngine.match_loop, hf, Bool.false_eq_true, if_false]
  | succ n ih =>
      intro e index fuel1 fuel2 h0 h1 h2
      cases fuel1 with
      | zero => omega
      | succ a =>
          cases fuel2 with
          | zero => omega
          | succ b =>
              by_cases hflag : (e.match_pass index).1 = true
              · simp only [TradingEngine.match_loop, hflag, if_true]
                have hdec := match_pass_true_decrease e index hflag
                exact ih (e.match_pass index).2 index a b (by omega) (by omega) (by omega)
              · have hf : (e.match_pass index).1 = false := by
                  cases hx : (e.match_pass index).1
                  · rfl
                  · exact absurd hx hflag
                simp only [TradingEngine.match_loop, hf, Bool.false_eq_true, if_false]

/-- C9: each matching iteration that records a trade removes two resting
orders and requeues at most one, so the slot's resting count strictly
decreases; consequently the loop reaches its fixpoint within
`slotCount + 1` iterations — any larger fuel gives the same state. -/
theorem claim_C9_loop_terminates (e : TradingEngine) (index : ℕ) :
    ((e.match_pass index).1 = true →
      (e.match_pass index).2.slotCount index < e.slotCount index) ∧
    (∀ fuel : ℕ, e.slotCount index < fuel →
      e.match_loop index fuel = e.match_loop index (e.slotCount index + 1)) := by
  refine ⟨fun h => match_pass_true_decrease e index h, ?_⟩
  intro fuel hf
  exact match_loop_fuel_indep (e.slotCount index) e index fuel (e.slotCount index + 1)
    (le_refl _) hf (by omega)

/-- Witness for C9 on the crossing one-slot engine: the pass shrinks the
book from two resting orders to one, and fuel 5 and fuel 3 agree. -/
theorem claim_C9_loop_terminates_witness :
    (wEngine.match_pass 0).2.slotCount 0 < wEngine.slotCount 0 ∧
      wEngine.match_loop 0 5 = wEngine.match_loop 0 3 := by
  have h := claim_C9_loop_terminates wEngine 0
  exact ⟨h.1 (by decide), h.2 5 (by decide)⟩

/-! ### Claim C8: end-to-end scenario -/

/-- A submit whose home slot is claimable resolves in one probe: the home
slot is claimed (ticker set, lock created) and the order pushed there. -/
theorem addOrder_home (e : TradingEngine) (ot : OrderType) (t : String) (q p : ℚ)
    (hq : ¬(q ≤ 0 ∨ p ≤ 0))
    (hlen : e.hash_ t % e.size < e.order_books.length)
    (hclaim : claimable
      (e.order_books.getD (e.hash_ t % e.size) OrderBook.init).ticker_symbol t = true) :
    e.addOrder ot t q p =
      (Except.ok e.next_id,
       { e with
         order_books := e.order_books.set (e.hash_ t % e.size)
           (OrderBook.add_order
             { e.order_books.getD (e.hash_ t % e.size) OrderBook.init with
                ticker_symbol := some t }
             { order_type := ot, ticker_symbol := t, price := p, quantity := q,
               timestamp := e.next_id, order_id := e.next_id })
         trade_locks := e.trade_locks.set (e.hash_ t % e.size) true
         next_id := e.next_id + 1 }) := by
  have hres : e.ticker_to_index t =
      (some (e.hash_ t % e.size), e.claimSlot t (e.hash_ t % e.size)) := by
    simp only [TradingEngine.ticker_to_index, hclaim, if_true]
  simp only [TradingEngine.addOrder, if_neg hq, hres, TradingEngine.claimSlot]
  rw [getD_set_self _ _ _ _ hlen]
  rw [List.set_set]

/-- wBuy60: the partially filled remainder of wBuy after selling 40. -/
def wBuy60 : Order :=
  { order_type := OrderType.BUY, ticker_symbol := tickX, price := 50,
    quantity := 60, timestamp := 0, order_id := 0 }

/-- wTrade: the unique trade of the end-to-end scenario. -/
def wTrade : MatchedOrders :=
  { buy_order_id := 0, sell_order_id := 1, quantity := 40, price := 45, timestamp := 2 }

/-- booksWith: the fresh directory with X's home slot holding book `b`. -/
def booksWith (hash_ : String → ℕ) (b : OrderBook) : List OrderBook :=
  (List.replicate 1600 OrderBook.init).set (hash_ tickX % 1600) b

/-- locksWith: the fresh lock array with X's home slot lock created. -/
def locksWith (hash_ : String → ℕ) : List Bool :=
  (List.replicate 1600 false).set (hash_ tickX % 1600) true

/-- engAfterBuy: the engine state after submitting BUY 100@50 for X. -/
def engAfterBuy (hash_ : String → ℕ) : TradingEngine :=
  { size := 1600, order_books := booksWith hash_ ⟨some tickX, [wBuy], []⟩,
    trade_locks := locksWith hash_, matches_ := [], hash_ := hash_, next_id := 1 }

/-- engAfterSell: the engine state after also submitting SELL 40@45. -/
def engAfterSell (hash_ : String → ℕ) : TradingEngine :=
  { size := 1600, order_books := booksWith hash_ ⟨some tickX, [wBuy], [wSell]⟩,
    trade_locks := locksWith hash_, matches_ := [], hash_ := hash_, next_id := 2 }

/-- engFinal: the engine state after the matching transaction on X's slot. -/
def engFinal (hash_ : String → ℕ) : TradingEngine :=
  { size := 1600, order_books := booksWith hash_ ⟨some tickX, [wBuy60], []⟩,
    trade_locks := locksWith hash_, matches_ := [wTrade], hash_ := hash_, next_id := 3 }

/-- runC8: submit BUY 100@50 then SELL 40@45 for ticker X on a fresh
engine, then run the matching transaction on X's slot. -/
def runC8 (hash_ : String → ℕ) (fuel : ℕ) : TradingEngine :=
  ((((TradingEngine.init hash_).addOrder OrderType.BUY tickX 100 50).2.addOrder
      OrderType.SELL tickX 40 45).2.match_orders_by_index (hash_ tickX % 1600) fuel)

theorem hidxlt (hash_ : String → ℕ) : hash_ tickX % 1600 < 1600 :=
  Nat.mod_lt _ (by norm_num)

theorem getD_booksWith (hash_ : String → ℕ) (b : OrderBook) :
    (booksWith hash_ b).getD (hash_ tickX % 1600) OrderBook.init = b := by
  unfold booksWith
  exact getD_set_self _ _ _ _ (by rw [List.length_replicate]; exact hidxlt hash_)

theorem stepBuy (hash_ : String → ℕ) :
    (TradingEngine.init hash_).addOrder OrderType.BUY tickX 100 50 =
      (Except.ok 0, engAfterBuy hash_) := by
  rw [addOrder_home _ _ _ _ _ (by norm_num)
    (by
      show hash_ tickX % 1600 < (List.replicate 1600 OrderBook.init).length
      rw [List.length_replicate]
      exact hidxlt hash_)
    (by
      show claimable
        ((List.replicate 1600 OrderBook.init).getD (hash_ tickX % 1600)
          OrderBook.init).ticker_symbol tickX = true
      rw [getD_replicate]
      rfl)]
  simp only [TradingEngine.init]
  rw [show (List.replicate 1600 OrderBook.init).getD (hash_ tickX % 1600) OrderBook.init =
    OrderBook.init from getD_replicate _ _ _]
  rfl

theorem stepSell (hash_ : String → ℕ) :
    (engAfterBuy hash_).addOrder OrderType.SELL tickX 40 45 =
      (Except.ok 1, engAfterSell hash_) := by
  rw [addOrder_home _ _ _ _ _ (by norm_num)
    (by
      show hash_ tickX % 1600 < (booksWith hash_ ⟨some tickX, [wBuy], []⟩).length
      unfold booksWith
      rw [List.length_set, List.length_replicate]
      exact hidxlt hash_)
    (by
      show claimable
        ((booksWith hash_ ⟨some tickX, [wBuy], []⟩).getD (hash_ tickX % 1600)
          OrderBook.init).ticker_symbol tickX = true
      rw [getD_booksWith]
      simp [claimable])]
  show (Except.ok 1,
    { engAfterBuy hash_ with
      order_books := (booksWith hash_ ⟨some tickX, [wBuy], []⟩).set (hash_ tickX % 1600)
        (OrderBook.add_order
          { (booksWith hash_ ⟨some tickX, [wBuy], []⟩).getD (hash_ tickX % 1600)
              OrderBook.init with ticker_symbol := some tickX }
          { order_type := OrderType.SELL, ticker_symbol := tickX, price := 45,
            quantity := 40, timestamp := 1, order_id := 1 })
      trade_locks := (locksWith hash_).set (hash_ tickX % 1600) true
      next_id := 2 }) = (Except.ok 1, engAfterSell hash_)
  rw [getD_booksWith]
  unfold booksWith locksWith engAfterSell engAfterBuy booksWith locksWith
  rw [List.set_set, List.set_set]
  rfl

theorem passCross (hash_ : String → ℕ) :
    (engAfterSell hash_).match_pass (hash_ tickX % 1600) = (true, engFinal hash_) := by
  have hbooks : (engAfterSell hash_).order_books =
      booksWith hash_ ⟨some tickX, [wBuy], [wSell]⟩ := rfl
  rw [match_pass_cross_eq _ _ wBuy wSell [] []
    (by rw [hbooks, getD_booksWith])
    (by rw [hbooks, getD_booksWith])
    (by norm_num [wBuy, wSell])]
  rw [hbooks, getD_booksWith]
  rw [if_pos (by norm_num [wBuy, wSell] : wSell.quantity < wBuy.quantity)]
  have htr : MatchedOrders.init wBuy wSell (engAfterSell hash_).next_id = wTrade := by
    unfold MatchedOrders.init
    rw [show min wBuy.quantity wSell.quantity = (40 : ℚ) from by
      rw [min_eq_right (by norm_num [wBuy, wSell] : wSell.quantity ≤ wBuy.quantity)]
      norm_num [wSell]]
    rfl
  have hbk : OrderBook.add_order ⟨some tickX, ([] : List Order), ([] : List Order)⟩
      { wBuy with quantity := wBuy.quantity - wSell.quantity } =
      ⟨some tickX, [wBuy60], []⟩ := by
    rw [show wBuy.quantity - wSell.quantity = (60 : ℚ) from by norm_num [wBuy, wSell]]
    rfl
  rw [htr, hbk]
  show (true,
    { engAfterSell hash_ with
      matches_ := [] ++ [wTrade]
      next_id := 3
      order_books := (booksWith hash_ ⟨some tickX, [wBuy], [wSell]⟩).set
        (hash_ tickX % 1600) ⟨some tickX, [wBuy60], []⟩ }) = (true, engFinal hash_)
  unfold booksWith engFinal engAfterSell booksWith
  rw [List.set_set]
  rfl

theorem passStop (hash_ : String → ℕ) :
    (engFinal hash_).match_pass (hash_ tickX % 1600) = (false, engFinal hash_) := by
  have hbooks : (engFinal hash_).order_books =
      booksWith hash_ ⟨some tickX, [wBuy60], []⟩ := rfl
  have hbuy : ((engFinal hash_).order_books.getD (hash_ tickX % 1600)
      OrderBook.init).buy_orders = wBuy60 :: [] := by
    rw [hbooks, getD_booksWith]
  have hsell : ((engFinal hash_).order_books.getD (hash_ tickX % 1600)
      OrderBook.init).sell_orders = ([] : List Order) := by
    rw [hbooks, getD_booksWith]
  have hpass : (engFinal hash_).match_pass (hash_ tickX % 1600) =
      (false,
       { engFinal hash_ with
         order_books := (engFinal hash_).order_books.set (hash_ tickX % 1600)
           (OrderBook.add_order
             ⟨((engFinal hash_).order_books.getD (hash_ tickX % 1600)
                 OrderBook.init).ticker_symbol, [], []⟩ wBuy60) }) := by
    simp only [TradingEngine.match_pass, OrderBook.pop_best_buy, OrderBook.pop_best_sell,
      hbuy, hsell]
  rw [hpass]
  rw [show ((engFinal hash_).order_books.getD (hash_ tickX % 1600)
      OrderBook.init).ticker_symbol = some tickX from by rw [hbooks, getD_booksWith]]
  show (false,
    { engFinal hash_ with
      order_books := (booksWith hash_ ⟨some tickX, [wBuy60], []⟩).set
        (hash_ tickX % 1600) (OrderBook.add_order ⟨some tickX, [], []⟩ wBuy60) }) =
    (false, engFinal hash_)
  unfold booksWith engFinal booksWith
  rw [List.set_set]
  rfl

/-- runC8_eq: the end-to-end scenario's final engine state. -/
theorem runC8_eq (hash_ : String → ℕ) (fuel : ℕ) (hfuel : 2 ≤ fuel) :
    runC8 hash_ fuel = engFinal hash_ := by
  obtain ⟨k, rfl⟩ : ∃ k, fuel = k + 2 := ⟨fuel - 2, by omega⟩
  unfold runC8
  rw [stepBuy, stepSell]
  show (engAfterSell hash_).match_orders_by_index (hash_ tickX % 1600) (k + 2) =
    engFinal hash_
  unfold TradingEngine.match_orders_by_index
  rw [show ((engAfterSell hash_).order_books.getD (hash_ tickX % 1600)
      OrderBook.init).ticker_symbol = some tickX from by
    rw [show (engAfterSell hash_).order_books =
      booksWith hash_ ⟨some tickX, [wBuy], [wSell]⟩ from rfl, getD_booksWith]]
  rw [if_neg (by simp)]
  show (engAfterSell hash_).match_loop (hash_ tickX % 1600) (k + 2) = engFinal hash_
  have hflag1 : ((engAfterSell hash_).match_pass (hash_ tickX % 1600)).1 = true := by
    rw [passCross]
  have hst1 : ((engAfterSell hash_).match_pass (hash_ tickX % 1600)).2 =
      engFinal hash_ := by
    rw [passCross]
  have hflag2 : ((engFinal hash_).match_pass (hash_ tickX % 1600)).1 = false := by
    rw [passStop]
  have hst2 : ((engFinal hash_).match_pass (hash_ tickX % 1600)).2 = engFinal hash_ := by
    rw [passStop]
  simp only [TradingEngine.match_loop, hflag1, if_true, hst1, hflag2,
    Bool.false_eq_true, if_false, hst2]

/-- C8: the scenario produces exactly one trade — quantity 40 at price 45
— and leaves exactly one resting order, the BUY with remaining quantity
60, in X's slot; every other slot is still empty. -/
theorem claim_C8_end_to_end (hash_ : String → ℕ) (fuel : ℕ) (hfuel : 2 ≤ fuel) :
    (runC8 hash_ fuel).matches_ = [wTrade] ∧
    ((runC8 hash_ fuel).order_books.getD (hash_ tickX % 1600) OrderBook.init).buy_orders =
      [wBuy60] ∧
    ((runC8 hash_ fuel).order_books.getD (hash_ tickX % 1600) OrderBook.init).sell_orders =
      [] ∧
    ((runC8 hash_ fuel).order_books.getD (hash_ tickX % 1600) OrderBook.init).ticker_symbol =
      some tickX ∧
    (∀ j, j ≠ hash_ tickX % 1600 →
      (runC8 hash_ fuel).order_books.getD j OrderBook.init = OrderBook.init) := by
  rw [runC8_eq hash_ fuel hfuel]
  refine ⟨rfl, ?_, ?_, ?_, ?_⟩
  · rw [show (engFinal hash_).order_books =
      booksWith hash_ ⟨some tickX, [wBuy60], []⟩ from rfl, getD_booksWith]
  · rw [show (engFinal hash_).order_books =
      booksWith hash_ ⟨some tickX, [wBuy60], []⟩ from rfl, getD_booksWith]
  · rw [show (engFinal hash_).order_books =
      booksWith hash_ ⟨some tickX, [wBuy60], []⟩ from rfl, getD_booksWith]
  · intro j hj
    rw [show (engFinal hash_).order_books =
      booksWith hash_ ⟨some tickX, [wBuy60], []⟩ from rfl]
    unfold booksWith
    rw [getD_set_of_ne _ _ _ _ _ (fun hx => hj hx.symm)]
    exact getD_replicate _ _ _

/-- Witness for C8 at the constant hash and fuel 2: one trade of 40@45
and the resting BUY has quantity 60. -/
theorem claim_C8_end_to_end_witness :
    (runC8 hash0 2).matches_ = [wTrade] ∧
      ((runC8 hash0 2).order_books.getD (hash0 tickX % 1600) OrderBook.init).buy_orders =
        [wBuy60] := by
  have h := claim_C8_end_to_end hash0 2 (by norm_num)
  exact ⟨h.1, h.2.1⟩

/-! ### Claim C10: positivity invariants of reachable states -/

/-- GoodBook: every resting order has positive quantity and price and
sits in the queue of its own side. -/
def GoodBook (b : OrderBook) : Prop :=
  (∀ o ∈ b.buy_orders, 0 < o.quantity ∧ 0 < o.price ∧ o.order_type = OrderType.BUY) ∧
  (∀ o ∈ b.sell_orders, 0 < o.quantity ∧ 0 < o.price ∧ o.order_type = OrderType.SELL)

/-- GoodEngine: every slot's book is good and every ledger entry has
positive quantity and price. -/
def GoodEngine (e : TradingEngine) : Prop :=
  (∀ j : ℕ, GoodBook (e.order_books.getD j OrderBook.init)) ∧
  (∀ m ∈ e.matches_, 0 < m.quantity ∧ 0 < m.price)

theorem GoodBook_init : GoodBook OrderBook.init := by
  constructor <;> intro o ho <;> simp [OrderBook.init] at ho

theorem GoodEngine_init (hash_ : String → ℕ) : GoodEngine (TradingEngine.init hash_) := by
  constructor
  · intro j
    rw [show (TradingEngine.init hash_).order_books =
      List.replicate 1600 OrderBook.init from rfl, getD_replicate]
    exact GoodBook_init
  · intro m hm
    rw [show (TradingEngine.init hash_).matches_ = [] from rfl] at hm
    exact absurd hm (by simp)

theorem GoodBook_add_order {b : OrderBook} (hb : GoodBook b) {o : Order}
    (hq : 0 < o.quantity) (hp : 0 < o.price) : GoodBook (b.add_order o) := by
  cases ho : o.order_type with
  | BUY =>
      constructor
      · intro x hx
        simp only [OrderBook.add_order, ho] at hx
        rcases heappush_mem.1 hx with rfl | hx
        · exact ⟨hq, hp, ho⟩
        · exact hb.1 x hx
      · intro x hx
        simp only [OrderBook.add_order, ho] at hx
        exact hb.2 x hx
  | SELL =>
      constructor
      · intro x hx
        simp only [OrderBook.add_order, ho] at hx
        exact hb.1 x hx
      · intro x hx
        simp only [OrderBook.add_order, ho] at hx
        rcases heappush_mem.1 hx with rfl | hx
        · exact ⟨hq, hp, ho⟩
        · exact hb.2 x hx

/-- Setting a slot to a good book keeps the slot predicate good. -/
theorem GoodEngine_books_set {e : TradingEngine}
    (h : ∀ j : ℕ, GoodBook (e.order_books.getD j OrderBook.init))
    {i : ℕ} {b : OrderBook} (hb : GoodBook b) :
    ∀ j : ℕ, GoodBook ((e.order_books.set i b).getD j OrderBook.init) := by
  intro j
  by_cases hij : i = j
  · subst hij
    rw [getD_set_index]
    by_cases hlen : i < e.order_books.length
    · rw [if_pos hlen]
      exact hb
    · rw [if_neg hlen]
      exact GoodBook_init
  · rw [getD_set_of_ne _ _ _ _ _ hij]
    exact h j

theorem GoodEngine_claimSlot {e : TradingEngine} (h : GoodEngine e) (t : String) (j : ℕ) :
    GoodEngine (e.claimSlot t j) := by
  refine ⟨?_, h.2⟩
  show ∀ i : ℕ, GoodBook ((e.order_books.set j _).getD i OrderBook.init)
  refine GoodEngine_books_set h.1 ?_
  exact ⟨(h.1 j).1, (h.1 j).2⟩

theorem GoodEngine_ticker_to_index {e : TradingEngine} (h : GoodEngine e) (t : String)
    {r : Option ℕ} {e2 : TradingEngine} (hres : e.ticker_to_index t = (r, e2)) :
    GoodEngine e2 := by
  unfold TradingEngine.ticker_to_index at hres
  by_cases hc : claimable
      (e.order_books.getD (e.hash_ t % e.size) OrderBook.init).ticker_symbol t = true
  · rw [if_pos hc] at hres
    have := congrArg Prod.snd hres
    simp only at this
    rw [← this]
    exact GoodEngine_claimSlot h t _
  · rw [if_neg hc] at hres
    rcases hfs : firstSat (e.slotClaimable t (e.hash_ t % e.size)) 0 e.size with _ | i
    · rw [hfs] at hres
      have := congrArg Prod.snd hres
      simp only at this
      rw [← this]
      exact h
    · rw [hfs] at hres
      have := congrArg Prod.snd hres
      simp only at this
      rw [← this]
      exact GoodEngine_claimSlot h t _

theorem GoodEngine_addOrder {e : TradingEngine} (h : GoodEngine e) (ot : OrderType)
    (t : String) (q p : ℚ) : GoodEngine (e.addOrder ot t q p).2 := by
  unfold TradingEngine.addOrder
  by_cases hval : q ≤ 0 ∨ p ≤ 0
  · rw [if_pos hval]
    exact h
  · rw [if_neg hval]
    push_neg at hval
    rcases hres : e.ticker_to_index t with ⟨r, e2⟩
    have he2 : GoodEngine e2 := GoodEngine_ticker_to_index h t hres
    cases r with
    | none => simpa using he2
    | some index =>
        simp only
        refine ⟨?_, he2.2⟩
        exact GoodEngine_books_set he2.1
          (GoodBook_add_order (he2.1 index) hval.1 hval.2)

theorem GoodBook_of_multisets {b b' : OrderBook} (hb : GoodBook b)
    (h1 : ((b'.buy_orders : List Order) : Multiset Order) =
      ((b.buy_orders : List Order) : Multiset Order))
    (h2 : ((b'.sell_orders : List Order) : Multiset Order) =
      ((b.sell_orders : List Order) : Multiset Order)) : GoodBook b' := by
  constructor
  · intro o ho
    refine hb.1 o ?_
    have : o ∈ ((b.buy_orders : List Order) : Multiset Order) := by
      rw [← h1]
      simpa using ho
    simpa using this
  · intro o ho
    refine hb.2 o ?_
    have : o ∈ ((b.sell_orders : List Order) : Multiset Order) := by
      rw [← h2]
      simpa using ho
    simpa using this

theorem GoodEngine_match_pass {e : TradingEngine} (h : GoodEngine e) (index : ℕ) :
    GoodEngine (e.match_pass index).2 := by
  by_cases hflag : (e.match_pass index).1 = true
  · rcases hb : (e.order_books.getD index OrderBook.init).buy_orders with _ | ⟨bb, restB⟩ <;>
      rcases hs : (e.order_books.getD index OrderBook.init).sell_orders with _ | ⟨bs, restS⟩
    · exfalso
      have hf : (e.match_pass index).1 = false := by
        simp only [TradingEngine.match_pass, OrderBook.pop_best_buy, OrderBook.pop_best_sell,
          hb, hs]
      rw [hf] at hflag
      exact Bool.noConfusion hflag
    · exfalso
      have hf : (e.match_pass index).1 = false := by
        simp only [TradingEngine.match_pass, OrderBook.pop_best_buy, OrderBook.pop_best_sell,
          hb, hs]
      rw [hf] at hflag
      exact Bool.noConfusion hflag
    · exfalso
      have hf : (e.match_pass index).1 = false := by
        simp only [TradingEngine.match_pass, OrderBook.pop_best_buy, OrderBook.pop_best_sell,
          hb, hs]
      rw [hf] at hflag
      exact Bool.noConfusion hflag
    · by_cases hcross : bs.price ≤ bb.price
      case neg =>
        exfalso
        have hf : (e.match_pass index).1 = false := by
          simp only [TradingEngine.match_pass, OrderBook.pop_best_buy,
            OrderBook.pop_best_sell, hb, hs, ge_iff_le, hcross, if_false]
        rw [hf] at hflag
        exact Bool.noConfusion hflag
      case pos =>
        have heq := match_pass_cross_eq e index bb bs restB restS hb hs hcross
        rw [heq]
        have hgb := h.1 index
        have hbbq : 0 < bb.quantity ∧ 0 < bb.price := by
          have := hgb.1 bb (by rw [hb]; simp)
          exact ⟨this.1, this.2.1⟩
        have hbsq : 0 < bs.quantity ∧ 0 < bs.price := by
          have := hgb.2 bs (by rw [hs]; simp)
          exact ⟨this.1, this.2.1⟩
        have hrestB : ∀ o ∈ restB, 0 < o.quantity ∧ 0 < o.price ∧
            o.order_type = OrderType.BUY := by
          intro o ho
          exact hgb.1 o (by rw [hb]; exact List.mem_cons_of_mem _ ho)
        have hrestS : ∀ o ∈ restS, 0 < o.quantity ∧ 0 < o.price ∧
            o.order_type = OrderType.SELL := by
          intro o ho
          exact hgb.2 o (by rw [hs]; exact List.mem_cons_of_mem _ ho)
        have hbase : GoodBook
            ⟨(e.order_books.getD index OrderBook.init).ticker_symbol, restB, restS⟩ :=
          ⟨hrestB, hrestS⟩
        constructor
        · refine GoodEngine_books_set h.1 ?_
          by_cases h1 : bs.quantity < bb.quantity
          · rw [if_pos h1]
            exact GoodBook_add_order hbase (by simp; linarith) (by simp; exact hbbq.2)
          · rw [if_neg h1]
            by_cases h2 : bb.quantity < bs.quantity
            · rw [if_pos h2]
              exact GoodBook_add_order hbase (by simp; linarith) (by simp; exact hbsq.2)
            · rw [if_neg h2]
              exact hbase
        · intro m hm
          simp only [List.mem_append, List.mem_singleton] at hm
          rcases hm with hm | rfl
          · exact h.2 m hm
          · constructor
            · show 0 < min bb.quantity bs.quantity
              exact lt_min hbbq.1 hbsq.1
            · show 0 < bs.price
              exact hbsq.2
  · have hf : (e.match_pass index).1 = false := by
      cases hx : (e.match_pass index).1
      · rfl
      · exact absurd hx hflag
    have hgb := h.1 index
    have hwb : allType OrderType.BUY (e.order_books.getD index OrderBook.init).buy_orders :=
      fun o ho => (hgb.1 o ho).2.2
    have hws : allType OrderType.SELL
        (e.order_books.getD index OrderBook.init).sell_orders :=
      fun o ho => (hgb.2 o ho).2.2
    have hst := match_pass_nocross_state e index hwb hws hf
    constructor
    · intro j
      by_cases hij : j = index
      · subst hij
        exact GoodBook_of_multisets hgb hst.2.2.2.2.2.1 hst.2.2.2.2.2.2.1
      · rw [hst.2.2.2.2.2.2.2.2 j hij]
        exact h.1 j
    · intro m hm
      rw [hst.1] at hm
      exact h.2 m hm

theorem GoodEngine_match_loop {e : TradingEngine} (h : GoodEngine e) (index : ℕ) :
    ∀ fuel : ℕ, GoodEngine (e.match_loop index fuel) := by
  intro fuel
  induction fuel generalizing e with
  | zero => exact h
  | succ n ih =>
      show GoodEngine
        (if (e.match_pass index).1 then ((e.match_pass index).2.match_loop index n)
          else (e.match_pass index).2)
      by_cases hflag : (e.match_pass index).1 = true
      · rw [if_pos hflag]
        exact ih (GoodEngine_match_pass h index)
      · rw [if_neg hflag]
        exact GoodEngine_match_pass h index

theorem GoodEngine_step {e e' : TradingEngine} (h : GoodEngine e) (hstep : Step e e') :
    GoodEngine e' := by
  cases hstep with
  | add ot t q p => exact GoodEngine_addOrder h ot t q p
  | matchIdx index fuel =>
      unfold TradingEngine.match_orders_by_index
      by_cases hn : (e.order_books.getD index OrderBook.init).ticker_symbol = none
      · rw [if_pos hn]
        exact h
      · rw [if_neg hn]
        exact GoodEngine_match_loop h index fuel

/-- C10: in every engine state reachable through submit and the matching
sweep, every resting order has positive quantity and price (partial fills
never requeue a non-positive remainder) and every ledger entry has
positive quantity and price. -/
theorem claim_C10_positivity (hash_ : String → ℕ) (e : TradingEngine)
    (h : Reachable hash_ e) :
    (∀ j : ℕ,
      (∀ o ∈ (e.order_books.getD j OrderBook.init).buy_orders,
        0 < o.quantity ∧ 0 < o.price) ∧
      (∀ o ∈ (e.order_books.getD j OrderBook.init).sell_orders,
        0 < o.quantity ∧ 0 < o.price)) ∧
    (∀ m ∈ e.matches_, 0 < m.quantity ∧ 0 < m.price) := by
  have hg : GoodEngine e := by
    induction h with
    | refl => exact GoodEngine_init hash_
    | tail hsteps hstep ih => exact GoodEngine_step ih hstep
  refine ⟨?_, hg.2⟩
  intro j
  exact ⟨fun o ho => ⟨((hg.1 j).1 o ho).1, ((hg.1 j).1 o ho).2.1⟩,
    fun o ho => ⟨((hg.1 j).2 o ho).1, ((hg.1 j).2 o ho).2.1⟩⟩

/-- Witness for C10 at the concrete end-to-end run: its single trade has
positive quantity and price. -/
theorem claim_C10_positivity_witness : 0 < wTrade.quantity ∧ 0 < wTrade.price := by
  have hreach : Reachable hash0 (runC8 hash0 2) := by
    refine Relation.ReflTransGen.tail (Relation.ReflTransGen.tail
      (Relation.ReflTransGen.tail Relation.ReflTransGen.refl
        (Step.add (TradingEngine.init hash0) OrderType.BUY tickX 100 50))
      (Step.add _ OrderType.SELL tickX 40 45))
      (Step.matchIdx _ (hash0 tickX % 1600) 2)
  have h := claim_C10_positivity hash0 (runC8 hash0 2) hreach
  refine h.2 wTrade ?_
  rw [show (runC8 hash0 2).matches_ = [wTrade] from by
    rw [runC8_eq hash0 2 (by norm_num)]
    rfl]
  simp

/-! ### Claim C6: directory slot assignment -/

theorem claimable_some_self (t : String) : claimable (some t) t = true := by
  simp [claimable]

theorem claimable_some_false {s t : String} (h1 : s ≠ "") (h2 : s ≠ t) :
    claimable (some s) t = false := by
  have hb : (some s == some t) = false := by
    cases hx : (some s == some t)
    · rfl
    · exact absurd (by injection (eq_of_beq hx)) h2
  have hf : tickerFalsy (some s) = false := by
    show s.isEmpty = false
    cases hx : s.isEmpty
    · rfl
    · exact absurd ((String.isEmpty_iff s).1 hx) h1
  rw [claimable, hb, hf]
  rfl

theorem claimable_false_inv {ts : Option String} {t : String}
    (h : claimable ts t = false) : ∃ s, ts = some s ∧ s ≠ "" ∧ s ≠ t := by
  cases ts with
  | none => exact absurd h (by simp [claimable, tickerFalsy])
  | some s =>
      refine ⟨s, rfl, ?_, ?_⟩
      · intro hx
        subst hx
        simp [claimable, tickerFalsy] at h
        exact absurd h.2 (by decide)
      · intro hx
        subst hx
        rw [claimable_some_self] at h
        exact Bool.noConfusion h

/-- itn_none: a failed resolution leaves the engine untouched. -/
theorem ticker_to_index_none {e : TradingEngine} {t : String} {e' : TradingEngine}
    (h : e.ticker_to_index t = (none, e')) : e' = e := by
  unfold TradingEngine.ticker_to_index at h
  by_cases hc : claimable
      (e.order_books.getD (e.hash_ t % e.size) OrderBook.init).ticker_symbol t = true
  · rw [if_pos hc] at h
    exact absurd (congrArg Prod.fst h) (by simp)
  · rw [if_neg hc] at h
    rcases hfs : firstSat (e.slotClaimable t (e.hash_ t % e.size)) 0 e.size with _ | i
    · rw [hfs] at h
      exact (congrArg Prod.snd h).symm
    · rw [hfs] at h
      exact absurd (congrArg Prod.fst h) (by simp)

/-- A successful resolution is the first claimable probe position. -/
theorem ticker_to_index_some_spec {e : TradingEngine} {t : String} {j : ℕ}
    {e' : TradingEngine} (hsz : 0 < e.size)
    (h : e.ticker_to_index t = (some j, e')) :
    ∃ k, k < e.size ∧ j = (e.hash_ t % e.size + k) % e.size ∧
      claimable (e.order_books.getD j OrderBook.init).ticker_symbol t = true ∧
      (∀ m, m < k →
        claimable (e.order_books.getD ((e.hash_ t % e.size + m) % e.size)
          OrderBook.init).ticker_symbol t = false) ∧
      e' = e.claimSlot t j := by
  unfold TradingEngine.ticker_to_index at h
  by_cases hc : claimable
      (e.order_books.getD (e.hash_ t % e.size) OrderBook.init).ticker_symbol t = true
  · rw [if_pos hc] at h
    have h1 : e.hash_ t % e.size = j := by
      have := congrArg Prod.fst h
      simpa using this
    have h2 : e' = e.claimSlot t (e.hash_ t % e.size) := by
      have := congrArg Prod.snd h
      simpa using this.symm
    refine ⟨0, hsz, ?_, ?_, ?_, ?_⟩
    · rw [← h1, Nat.add_zero]
      exact (Nat.mod_eq_of_lt (Nat.mod_lt _ hsz)).symm
    · rw [← h1]
      exact hc
    · intro m hm
      omega
    · rw [h2, h1]
  · rw [if_neg hc] at h
    rcases hfs : firstSat (e.slotClaimable t (e.hash_ t % e.size)) 0 e.size with _ | i
    · rw [hfs] at h
      exact absurd (congrArg Prod.fst h) (by simp)
    · rw [hfs] at h
      obtain ⟨_, hi2, hi3, hi4⟩ := firstSat_eq_some hfs
      have h1 : (e.hash_ t % e.size + i) % e.size = j := by
        have := congrArg Prod.fst h
        simpa using this
      have h2 : e' = e.claimSlot t ((e.hash_ t % e.size + i) % e.size) := by
        have := congrArg Prod.snd h
        simpa using this.symm
      refine ⟨i, by omega, h1.symm, ?_, ?_, ?_⟩
      · rw [← h1]
        exact hi3
      · intro m hm
        exact hi4 m (by omega) hm
      · rw [h2, h1]

/-- Converse: if position `k` is the first claimable probe, resolution
returns it. -/
theorem ticker_to_index_intro {e : TradingEngine} {t : String} {k : ℕ}
    (hsz : 0 < e.size) (hk : k < e.size)
    (hck : claimable (e.order_books.getD ((e.hash_ t % e.size + k) % e.size)
      OrderBook.init).ticker_symbol t = true)
    (hm : ∀ m, m < k → claimable (e.order_books.getD ((e.hash_ t % e.size + m) % e.size)
      OrderBook.init).ticker_symbol t = false) :
    e.ticker_to_index t =
      (some ((e.hash_ t % e.size + k) % e.size),
       e.claimSlot t ((e.hash_ t % e.size + k) % e.size)) := by
  have hidx : (e.hash_ t % e.size + 0) % e.size = e.hash_ t % e.size := by
    rw [Nat.add_zero]
    exact Nat.mod_eq_of_lt (Nat.mod_lt _ hsz)
  cases k with
  | zero =>
      rw [hidx] at hck
      unfold TradingEngine.ticker_to_index
      rw [if_pos hck, hidx]
  | succ k' =>
      have hhome : claimable
          (e.order_books.getD (e.hash_ t % e.size) OrderBook.init).ticker_symbol t =
            false := by
        have := hm 0 (by omega)
        rwa [hidx] at this
      unfold TradingEngine.ticker_to_index
      rw [if_neg (by rw [hhome]; exact Bool.noConfusion)]
      have hfs : firstSat (e.slotClaimable t (e.hash_ t % e.size)) 0 e.size =
          some (k' + 1) :=
        firstSat_intro (Nat.zero_le _) (by omega)
          (by unfold TradingEngine.slotClaimable; exact hck)
          (fun m hm1 hm2 => by unfold TradingEngine.slotClaimable; exact hm m hm2)
      rw [hfs]

/-- FrozenPreserved: the directory shape is preserved and every slot
holding a non-empty ticker keeps it. -/
def FrozenPreserved (e e' : TradingEngine) : Prop :=
  e'.size = e.size ∧ e'.hash_ = e.hash_ ∧
  e'.order_books.length = e.order_books.length ∧
  ∀ j s, s ≠ "" → (e.order_books.getD j OrderBook.init).ticker_symbol = some s →
    (e'.order_books.getD j OrderBook.init).ticker_symbol = some s

theorem FrozenPreserved.refl (e : TradingEngine) : FrozenPreserved e e :=
  ⟨rfl, rfl, rfl, fun _ _ _ h => h⟩

theorem FrozenPreserved.trans {e1 e2 e3 : TradingEngine}
    (h12 : FrozenPreserved e1 e2) (h23 : FrozenPreserved e2 e3) :
    FrozenPreserved e1 e3 :=
  ⟨h23.1.trans h12.1, h23.2.1.trans h12.2.1, h23.2.2.1.trans h12.2.2.1,
   fun j s hs h => h23.2.2.2 j s hs (h12.2.2.2 j s hs h)⟩

theorem add_order_ticker (b : OrderBook) (o : Order) :
    (b.add_order o).ticker_symbol = b.ticker_symbol := by
  cases ho : o.order_type <;> simp [OrderBook.add_order, ho]

/-- Rewriting one slot with a book of the same ticker changes no slot's
ticker. -/
theorem set_ticker_facts {e : TradingEngine} {index : ℕ} {B : OrderBook}
    (hBt : B.ticker_symbol = (e.order_books.getD index OrderBook.init).ticker_symbol) :
    ∀ j, ((e.order_books.set index B).getD j OrderBook.init).ticker_symbol =
      (e.order_books.getD j OrderBook.init).ticker_symbol := by
  intro j
  by_cases hij : index = j
  · subst hij
    rw [getD_set_index]
    by_cases hlen : index < e.order_books.length
    · rw [if_pos hlen]
      exact hBt
    · rw [if_neg hlen]
      rw [List.getD_eq_default _ _ (by omega)]
  · rw [getD_set_of_ne _ _ _ _ _ hij]

/-- A matching pass never changes any slot's ticker, nor the directory
shape. -/
theorem match_pass_shape (e : TradingEngine) (index : ℕ) :
    (e.match_pass index).2.size = e.size ∧
    (e.match_pass index).2.hash_ = e.hash_ ∧
    (e.match_pass index).2.order_books.length = e.order_books.length ∧
    ∀ j, ((e.match_pass index).2.order_books.getD j OrderBook.init).ticker_symbol =
      (e.order_books.getD j OrderBook.init).ticker_symbol := by
  rcases hb : (e.order_books.getD index OrderBook.init).buy_orders with _ | ⟨bb, restB⟩ <;>
    rcases hs : (e.order_books.getD index OrderBook.init).sell_orders with _ | ⟨bs, restS⟩
  · have heq : (e.match_pass index).2 =
        { e with
          order_books :=
            e.order_books.set index (e.order_books.getD index OrderBook.init) } := by
      simp only [TradingEngine.match_pass, OrderBook.pop_best_buy, OrderBook.pop_best_sell,
        hb, hs]
    rw [heq]
    exact ⟨rfl, rfl, by simp, set_ticker_facts rfl⟩
  · have heq : (e.match_pass index).2 =
        { e with
          order_books := e.order_books.set index
            (OrderBook.add_order
              ⟨(e.order_books.getD index OrderBook.init).ticker_symbol, [], restS⟩ bs) } := by
      simp only [TradingEngine.match_pass, OrderBook.pop_best_buy, OrderBook.pop_best_sell,
        hb, hs]
    rw [heq]
    exact ⟨rfl, rfl, by simp, set_ticker_facts (by rw [add_order_ticker])⟩
  · have heq : (e.match_pass index).2 =
        { e with
          order_books := e.order_books.set index
            (OrderBook.add_order
              ⟨(e.order_books.getD index OrderBook.init).ticker_symbol, restB, []⟩ bb) } := by
      simp only [TradingEngine.match_pass, OrderBook.pop_best_buy, OrderBook.pop_best_sell,
        hb, hs]
    rw [heq]
    exact ⟨rfl, rfl, by simp, set_ticker_facts (by rw [add_order_ticker])⟩
  · by_cases hcross : bs.price ≤ bb.price
    · have heq := match_pass_cross_eq e index bb bs restB restS hb hs hcross
      rw [heq]
      refine ⟨rfl, rfl, by simp, set_ticker_facts ?_⟩
      by_cases h1 : bs.quantity < bb.quantity
      · rw [if_pos h1, add_order_ticker]
      · rw [if_neg h1]
        by_cases h2 : bb.quantity < bs.quantity
        · rw [if_pos h2, add_order_ticker]
        · rw [if_neg h2]
    · have heq : (e.match_pass index).2 =
          { e with
            order_books := e.order_books.set index
              (OrderBook.add_order (OrderBook.add_order
                ⟨(e.order_books.getD index OrderBook.init).ticker_symbol, restB, restS⟩ bb)
                bs) } := by
        simp only [TradingEngine.match_pass, OrderBook.pop_best_buy, OrderBook.pop_best_sell,
          hb, hs, ge_iff_le, hcross, if_false]
      rw [heq]
      exact ⟨rfl, rfl, by simp,
        set_ticker_facts (by rw [add_order_ticker, add_order_ticker])⟩

theorem claimSlot_frozen {e : TradingEngine} {t : String} {j : ℕ}
    (hcj : claimable (e.order_books.getD j OrderBook.init).ticker_symbol t = true) :
    FrozenPreserved e (e.claimSlot t j) := by
  refine ⟨rfl, rfl, by simp [TradingEngine.claimSlot], ?_⟩
  intro i s hs hsome
  show (((e.order_books.set j _).getD i OrderBook.init)).ticker_symbol = some s
  by_cases hij : j = i
  · subst hij
    have hlen : j < e.order_books.length := by
      by_contra hx
      rw [List.getD_eq_default _ _ (by omega)] at hsome
      exact Option.noConfusion hsome
    rw [hsome] at hcj
    have hst : s = t := by
      by_contra hne
      rw [claimable_some_false hs hne] at hcj
      exact Bool.noConfusion hcj
    rw [getD_set_index, if_pos hlen]
    show (some t : Option String) = some s
    rw [hst]
  · rw [getD_set_of_ne _ _ _ _ _ hij]
    exact hsome

theorem frozen_of_ticker_eq {e e' : TradingEngine} (h1 : e'.size = e.size)
    (h2 : e'.hash_ = e.hash_) (h3 : e'.order_books.length = e.order_books.length)
    (h4 : ∀ j, (e'.order_books.getD j OrderBook.init).ticker_symbol =
      (e.order_books.getD j OrderBook.init).ticker_symbol) :
    FrozenPreserved e e' :=
  ⟨h1, h2, h3, fun j s _ hsome => by rw [h4 j]; exact hsome⟩

theorem ticker_to_index_frozen {e : TradingEngine} {t : String} {r : Option ℕ}
    {e2 : TradingEngine} (hres : e.ticker_to_index t = (r, e2)) :
    FrozenPreserved e e2 := by
  unfold TradingEngine.ticker_to_index at hres
  by_cases hc : claimable
      (e.order_books.getD (e.hash_ t % e.size) OrderBook.init).ticker_symbol t = true
  · rw [if_pos hc] at hres
    have he2 : e2 = e.claimSlot t (e.hash_ t % e.size) := (congrArg Prod.snd hres).symm
    rw [he2]
    exact claimSlot_frozen hc
  · rw [if_neg hc] at hres
    rcases hfs : firstSat (e.slotClaimable t (e.hash_ t % e.size)) 0 e.size with _ | i
    · rw [hfs] at hres
      have he2 : e2 = e := (congrArg Prod.snd hres).symm
      rw [he2]
      exact FrozenPreserved.refl e
    · rw [hfs] at hres
      obtain ⟨_, _, hc3, _⟩ := firstSat_eq_some hfs
      have he2 : e2 = e.claimSlot t ((e.hash_ t % e.size + i) % e.size) :=
        (congrArg Prod.snd hres).symm
      rw [he2]
      refine claimSlot_frozen ?_
      unfold TradingEngine.slotClaimable at hc3
      exact hc3

theorem match_loop_frozen (index : ℕ) : ∀ (fuel : ℕ) (e : TradingEngine),
    FrozenPreserved e (e.match_loop index fuel) := by
  intro fuel
  induction fuel with
  | zero => intro e; exact FrozenPreserved.refl e
  | succ n ih =>
      intro e
      have hshape := match_pass_shape e index
      have hpass : FrozenPreserved e (e.match_pass index).2 :=
        frozen_of_ticker_eq hshape.1 hshape.2.1 hshape.2.2.1 hshape.2.2.2
      show FrozenPreserved e
        (if (e.match_pass index).1 then ((e.match_pass index).2.match_loop index n)
          else (e.match_pass index).2)
      by_cases hflag : (e.match_pass index).1 = true
      · rw [if_pos hflag]
        exact FrozenPreserved.trans hpass (ih (e.match_pass index).2)
      · rw [if_neg hflag]
        exact hpass

theorem step_frozen {e e' : TradingEngine} (h : Step e e') : FrozenPreserved e e' := by
  cases h with
  | add ot t q p =>
      show FrozenPreserved e (e.addOrder ot t q p).2
      unfold TradingEngine.addOrder
      by_cases hval : q ≤ 0 ∨ p ≤ 0
      · rw [if_pos hval]
        exact FrozenPreserved.refl e
      · rw [if_neg hval]
        rcases hres : e.ticker_to_index t with ⟨r, e2⟩
        have h1 : FrozenPreserved e e2 := ticker_to_index_frozen hres
        cases r with
        | none => exact h1
        | some index =>
            refine FrozenPreserved.trans h1 (frozen_of_ticker_eq rfl rfl (by simp) ?_)
            exact set_ticker_facts (by rw [add_order_ticker])
  | matchIdx index fuel =>
      show FrozenPreserved e (e.match_orders_by_index index fuel)
      unfold TradingEngine.match_orders_by_index
      by_cases hn : (e.order_books.getD index OrderBook.init).ticker_symbol = none
      · rw [if_pos hn]
        exact FrozenPreserved.refl e
      · rw [if_neg hn]
        exact match_loop_frozen index fuel e

theorem reachableFrom_frozen {e e' : TradingEngine} (h : ReachableFrom e e') :
    FrozenPreserved e e' := by
  induction h with
  | refl => exact FrozenPreserved.refl e
  | tail hsteps hstep ih => exact FrozenPreserved.trans ih (step_frozen hstep)

/-- C6 (amended to non-empty tickers): once a non-empty ticker A is
assigned a slot, through any further submissions and matching that slot
still holds A, every later resolution of A returns the same slot, and a
resolution of any other non-empty ticker B never returns A's slot — so
orders for A and B never share a book.  (The unamended claim fails for
the empty ticker, which the probe test treats as an unset slot; see the
counterexample.) -/
theorem claim_C6_amended_directory_isolation (e : TradingEngine) (A B : String)
    (iA : ℕ) (eA : TradingEngine) (hsz : 0 < e.size)
    (hlen : e.order_books.length = e.size)
    (hA : A ≠ "") (hB : B ≠ "") (hAB : A ≠ B)
    (hres : e.ticker_to_index A = (some iA, eA)) :
    ∀ eB, ReachableFrom eA eB →
      ((eB.order_books.getD iA OrderBook.init).ticker_symbol = some A) ∧
      (∀ iA2 e2, eB.ticker_to_index A = (some iA2, e2) → iA2 = iA) ∧
      (∀ iB e2, eB.ticker_to_index B = (some iB, e2) → iB ≠ iA) := by
  obtain ⟨k, hk, hjeq, hcj, hprev, heA⟩ := ticker_to_index_some_spec hsz hres
  intro eB hreach
  have hfr : FrozenPreserved eA eB := reachableFrom_frozen hreach
  have hiAlen : iA < e.order_books.length := by
    rw [hlen, hjeq]
    exact Nat.mod_lt _ hsz
  have heAiA : (eA.order_books.getD iA OrderBook.init).ticker_symbol = some A := by
    rw [heA]
    show ((e.order_books.set iA
      { e.order_books.getD iA OrderBook.init with
        ticker_symbol := some A }).getD iA OrderBook.init).ticker_symbol = some A
    rw [getD_set_index, if_pos hiAlen]
  have heAsize : eA.size = e.size := by rw [heA]; rfl
  have heAhash : eA.hash_ = e.hash_ := by rw [heA]; rfl
  have hBiA : (eB.order_books.getD iA OrderBook.init).ticker_symbol = some A :=
    hfr.2.2.2 iA A hA heAiA
  have hBsize : eB.size = e.size := hfr.1.trans heAsize
  have hBhash : eB.hash_ = e.hash_ := hfr.2.1.trans heAhash
  have hprevB : ∀ m, m < k →
      ∃ s, (eB.order_books.getD ((e.hash_ A % e.size + m) % e.size)
          OrderBook.init).ticker_symbol = some s ∧ s ≠ "" ∧ s ≠ A := by
    intro m hm
    obtain ⟨s, hsome, hne, hnA⟩ := claimable_false_inv (hprev m hm)
    have hmne : (e.hash_ A % e.size + m) % e.size ≠ iA := by
      intro hx
      have h1 := hprev m hm
      rw [hx, hcj] at h1
      exact Bool.noConfusion h1
    have heAm : (eA.order_books.getD ((e.hash_ A % e.size + m) % e.size)
        OrderBook.init).ticker_symbol = some s := by
      rw [heA]
      show ((e.order_books.set iA
        { e.order_books.getD iA OrderBook.init with
          ticker_symbol := some A }).getD _ OrderBook.init).ticker_symbol = some s
      rw [getD_set_of_ne _ _ _ _ _ (fun hx => hmne hx.symm)]
      exact hsome
    exact ⟨s, hfr.2.2.2 _ s hne heAm, hne, hnA⟩
  have hposk : (eB.hash_ A % eB.size + k) % eB.size = iA := by
    rw [hBhash, hBsize, ← hjeq]
  refine ⟨hBiA, ?_, ?_⟩
  · intro iA2 e2 hres2
    have hintro : eB.ticker_to_index A =
        (some ((eB.hash_ A % eB.size + k) % eB.size),
         eB.claimSlot A ((eB.hash_ A % eB.size + k) % eB.size)) := by
      refine ticker_to_index_intro (by rw [hBsize]; exact hsz)
        (by rw [hBsize]; exact hk) ?_ ?_
      · rw [hposk, hBiA]
        exact claimable_some_self A
      · intro m hm
        have hpos : (eB.hash_ A % eB.size + m) % eB.size =
            (e.hash_ A % e.size + m) % e.size := by
          rw [hBhash, hBsize]
        rw [hpos]
        obtain ⟨s, hsome, hne, hnA⟩ := hprevB m hm
        rw [hsome]
        exact claimable_some_false hne hnA
    rw [hres2] at hintro
    have hfst := congrArg Prod.fst hintro
    simp only at hfst
    rw [hposk] at hfst
    simpa using hfst
  · intro iB e2 hres2
    intro hiBeq
    obtain ⟨k2, hk2, hjeq2, hcj2, _, _⟩ :=
      ticker_to_index_some_spec (by rw [hBsize]; exact hsz) hres2
    rw [hiBeq, hBiA] at hcj2
    rw [claimable_some_false hA hAB] at hcj2
    exact Bool.noConfusion hcj2

/-- emptyTick: the empty ticker symbol, which the probe test cannot
distinguish from an unset slot. -/
def emptyTick : String := ""

/-- cexE1: a fresh engine after submitting a BUY under the empty ticker
(the directory assigns it slot 0 under the constant hash). -/
def cexE1 : TradingEngine :=
  ((TradingEngine.init hash0).addOrder OrderType.BUY emptyTick 1 1).2

/-- cexE2: cexE1 after resolving ticker X, which steals slot 0 because
the resting empty ticker is falsy. -/
def cexE2 : TradingEngine := (cexE1.ticker_to_index tickX).2

/-- cexOrd: the order submitted under the empty ticker. -/
def cexOrd : Order :=
  { order_type := OrderType.BUY, ticker_symbol := emptyTick, price := 1,
    quantity := 1, timestamp := 0, order_id := 0 }

/-- Counterexample to C6 as stated: with colliding hashes, the distinct
tickers "" and "X" are both assigned slot 0; re-resolving "" afterwards
returns slot 1, not 0; and the order submitted under "" rests in the
book that now belongs to "X". -/
theorem claim_C6_counterexample :
    (((TradingEngine.init hash0).ticker_to_index emptyTick).1 = some 0) ∧
    ((cexE1.ticker_to_index tickX).1 = some 0) ∧
    ((cexE2.ticker_to_index emptyTick).1 = some 1) ∧
    ((cexE2.order_books.getD 0 OrderBook.init).ticker_symbol = some tickX) ∧
    (∃ o, o ∈ (cexE2.order_books.getD 0 OrderBook.init).buy_orders ∧
      o.ticker_symbol = emptyTick) := by
  refine ⟨rfl, rfl, rfl, rfl, ?_⟩
  refine ⟨cexOrd, ?_, rfl⟩
  decide

/-- Witness for the amended C6: ticker A keeps slot 0 of the fresh
engine, and resolving B there yields slot 1 ≠ 0. -/
theorem claim_C6_amended_directory_isolation_witness :
    ((((TradingEngine.init hash0).ticker_to_index tickA).2.order_books.getD 0
        OrderBook.init).ticker_symbol = some tickA) ∧ (1 : ℕ) ≠ 0 := by
  have hres : (TradingEngine.init hash0).ticker_to_index tickA =
      (some 0, ((TradingEngine.init hash0).ticker_to_index tickA).2) := by
    have h1 : ((TradingEngine.init hash0).ticker_to_index tickA).1 = some 0 := rfl
    exact Prod.ext h1 rfl
  have h := claim_C6_amended_directory_isolation (TradingEngine.init hash0) tickA tickB
    0 (((TradingEngine.init hash0).ticker_to_index tickA).2)
    (by decide)
    (by
      show (List.replicate 1600 OrderBook.init).length = 1600
      rw [List.length_replicate])
    (by decide) (by decide) (by decide) hres
    (((TradingEngine.init hash0).ticker_to_index tickA).2) Relation.ReflTransGen.refl
  have hres2 : (((TradingEngine.init hash0).ticker_to_index tickA).2.ticker_to_index
      tickB) =
      (some 1, ((((TradingEngine.init hash0).ticker_to_index tickA).2.ticker_to_index
        tickB)).2) := by
    have h1 : ((((TradingEngine.init hash0).ticker_to_index tickA).2.ticker_to_index
        tickB)).1 = some 1 := rfl
    exact Prod.ext h1 rfl
  exact ⟨h.1, h.2.2 1 _ hres2⟩

end TradingSpec
